import Mathlib

/-!
Verification of the content ingestion and extraction pipeline and of the
derived-analysis cache of the repository, shallowly embedded from the
Python sources (news_fetcher.py, article_analyzer.py, db.py).

Conventions of the embedding:
- External collaborators (HTTP client, trafilatura, BeautifulSoup, the
  remote AI model) are modelled as oracle functions supplied through
  environment records; a Python exception raised by a call is modelled by
  the oracle returning an Except error value.
- Python strings are Lean strings; character-level work is done on the
  underlying character list.  Python str.lower, str.isdigit and the
  IGNORECASE regex flag are modelled on ASCII, which covers every literal
  the code compares against.
- SQLite tables are modelled as lists of row records; INSERT OR IGNORE
  and ON CONFLICT DO UPDATE are modelled by the corresponding list
  operations keyed on the constrained columns.
-/

/-- Python whitespace: the ASCII part of str.strip and of the regex class
of whitespace characters (space, tab, newline, carriage return, vertical
tab, form feed). -/
def pyWs (c : Char) : Bool :=
  c = ' ' || c = '\t' || c = '\n' || c = '\r' || c = '\x0b' || c = '\x0c'

/-- Substring test on character lists, Python needle in hay. -/
def strContainsL (hay needle : List Char) : Bool :=
  hay.tails.any (fun t => needle.isPrefixOf t)

/-- Substring test on strings, Python needle in hay. -/
def strContains (hay needle : String) : Bool :=
  strContainsL hay.data needle.data

/-- Case-insensitive (ASCII) substring test; the needle is given already
in lower case. -/
def ciContains (hay needle : List Char) : Bool :=
  strContainsL (hay.map Char.toLower) needle

/-- Drop a case-insensitive literal from the front, returning the rest. -/
def ciDropLit : List Char → List Char → Option (List Char)
  | [], rest => some rest
  | _ :: _, [] => none
  | l :: ls, c :: cs => if l.toLower = c.toLower then ciDropLit ls cs else none

/-- Python str.lstrip with no argument, on a character list. -/
def pyLTrim : List Char → List Char
  | [] => []
  | c :: rest => if pyWs c then pyLTrim rest else c :: rest

/-- Python str.rstrip with no argument, on a character list. -/
def pyRTrim : List Char → List Char
  | [] => []
  | c :: rest =>
    if pyRTrim rest = [] then (if pyWs c then [] else [c])
    else c :: pyRTrim rest

/-- Python str.strip with no argument, on a character list. -/
def pyStrip (cs : List Char) : List Char := pyRTrim (pyLTrim cs)

/-- Python str.strip with no argument, on a string. -/
def pyStripStr (s : String) : String := ⟨pyStrip s.data⟩

/-- Python str.lower, modelled on ASCII. -/
def lowerStr (s : String) : String := ⟨s.data.map Char.toLower⟩

/-- Python slicing s[:n], by characters. -/
def strTake (s : String) (n : Nat) : String := ⟨s.data.take n⟩

/-- Python str.startswith. -/
def strStartsWith (s pre0 : String) : Bool := pre0.data.isPrefixOf s.data

/-- Python str.endswith. -/
def strEndsWith (s post : String) : Bool :=
  post.data.reverse.isPrefixOf s.data.reverse

/-- Python slicing s[n:], by characters. -/
def strDrop (s : String) (n : Nat) : String := ⟨s.data.drop n⟩

/-- Python slicing s[:-n], by characters. -/
def strDropRight (s : String) (n : Nat) : String :=
  ⟨s.data.take (s.data.length - n)⟩

/-!
## Content-sufficiency decision (news_fetcher.py, fetch_rss_feed)

The smart-fetch logic of fetch_rss_feed:

  should_fetch = len(content_clean) < 2000 or "techcrunch" in url or "wired" in url
  if len(content_clean) < len(summary_clean) + 100:
      should_fetch = True
-/

/-- The content-sufficiency decision of fetch_rss_feed: fetch the full
page when the cleaned inline content is short, the item link is on the
known-truncated allowlist, or the content is barely longer than the
summary.  It is computed from the item link and the two cleaned lengths. -/
def needsFullFetch (url : String) (summaryLen contentLen : Nat) : Bool :=
  (decide (contentLen < 2000) || strContains url "techcrunch"
      || strContains url "wired")
    || decide (contentLen < summaryLen + 100)

/-- A row of the news_sources table (db.py, init_database). -/
structure SrcRow where
  id : Nat
  name : String
  url : String
  rssUrl : Option String
  enabled : Bool
  category : Option String
deriving DecidableEq, Repr

/-- The per-item decision as evaluated inside fetch_rss_feed, where the
source dictionary is in scope; the computation reads only the entry link
and the two cleaned lengths, never the source. -/
def shouldFetchFor (_source : SrcRow) (url : String)
    (summaryLen contentLen : Nat) : Bool :=
  needsFullFetch url summaryLen contentLen

/-!
## Post-filter clean_extracted_text (news_fetcher.py, lines 127-176)

The function splits the text into lines, removes every line on which one
of the junk regular expressions fires (re.search with IGNORECASE), strips
a trailing-pipe match from the kept lines, joins the lines back, replaces
every run of three or more newlines by exactly two, and finally strips
the result.  Each regular expression is translated to a decidable
character-list matcher below; the two Got-a-Tip line patterns coincide
under IGNORECASE and are translated once.
-/

/-- Tail of junk pattern 1 after the Got-a-Tip literal:
whitespace, up to two optional pipes with whitespace between, one or more
dashes, an optional pipe, whitespace, then a pipe followed by at least
one character that is not a pipe. -/
def p1End (cs : List Char) : Bool :=
  match List.dropWhile pyWs cs with
  | '|' :: c :: _ => decide (c ≠ '|')
  | _ => false

/-- Junk pattern 1 matched at one starting position. -/
def p1At (cs : List Char) : Bool :=
  match cs with
  | '|' :: t =>
    match ciDropLit "got a tip?".data (List.dropWhile pyWs t) with
    | some r0 =>
      let r1 := List.dropWhile pyWs r0
      let r2 := match r1 with
        | '|' :: t1 => List.dropWhile pyWs t1
        | _ => r1
      let r3 := match r2 with
        | '|' :: t2 => t2
        | _ => r2
      if (r3.takeWhile (fun c => c = '-')).isEmpty then false
      else
        let r4 := r3.dropWhile (fun c => c = '-')
        match r4 with
        | '|' :: t3 => p1End t3 || p1End r4
        | _ => p1End r4
    | none => false
  | _ => false

/-- Junk pattern 1, searched at every position of the line. -/
def p1Search (l : List Char) : Bool := l.tails.any p1At

/-- Junk patterns 2 and 3: a line that is only an optionally piped
Got-a-Tip phrase. -/
def gotATipLine (l : List Char) : Bool :=
  let r1 := List.dropWhile pyWs l
  let r2 := match r1 with
    | '|' :: t => List.dropWhile pyWs t
    | _ => r1
  match ciDropLit "got a tip?".data r2 with
  | some r3 =>
    let r4 := List.dropWhile pyWs r3
    let r5 := match r4 with
      | '|' :: t => t
      | _ => r4
    (List.dropWhile pyWs r5).isEmpty
  | none => false

/-- Junk pattern 4: a separator line such as a pipe, dashes or pipes or
whitespace, and a closing pipe. -/
def sepLine (l : List Char) : Bool :=
  match List.dropWhile pyWs l with
  | '|' :: rest =>
    let r := pyRTrim rest
    match r.getLast? with
    | some '|' =>
      let m := r.dropLast
      !m.isEmpty && m.all (fun c => c = '-' || pyWs c || c = '|')
    | _ => false
  | _ => false

/-- Junk pattern 5: a piped line whose body is pipe-free and mentions a
contact or tip keyword. -/
def pipeContactLine (l : List Char) : Bool :=
  match List.dropWhile pyWs l with
  | '|' :: rest =>
    let r := pyRTrim rest
    let x := if r.getLast? = some '|' then r.dropLast else r
    !(x.contains '|') &&
      (ciContains x "contact".data || ciContains x "tip".data
        || ciContains x "reporter".data || ciContains x "signal".data
        || ciContains x "securely".data)
  | _ => false

/-- Junk pattern 6: any line mentioning the current-or-former phrase. -/
def currentOrFormerLine (l : List Char) : Bool :=
  ciContains l "are you a current or former".data

/-- Junk pattern 7: any line mentioning contacting the reporter or
reporters securely. -/
def contactReporterLine (l : List Char) : Bool :=
  ciContains l "contact the reporter securely".data
    || ciContains l "contact the reporters securely".data

/-- Junk pattern 8: a line ending in a pipe followed only by whitespace. -/
def endsPipeWs (l : List Char) : Bool :=
  decide ((pyRTrim l).getLast? = some '|')

/-- Junk pattern 9: a line starting with a lone pipe and whitespace, with
no further pipe on the line. -/
def lonePipeStart (l : List Char) : Bool :=
  match List.dropWhile pyWs l with
  | '|' :: rest =>
    match rest with
    | [] => false
    | c :: _ => pyWs c && !(rest.contains '|')
  | _ => false

/-- A line is removed when any junk pattern fires on it. -/
def junkLine (l : List Char) : Bool :=
  p1Search l || gotATipLine l || sepLine l || pipeContactLine l
    || currentOrFormerLine l || contactReporterLine l || endsPipeWs l
    || lonePipeStart l

/-- The per-line re.sub removing a trailing whitespace-pipe-whitespace
match: when the last non-whitespace character is a pipe, the leftmost
match covers the whitespace run before that pipe through the end of the
line, so the pipe, the whitespace before it and after it are removed;
otherwise the line is unchanged. -/
def stripTrailingPipe (l : List Char) : List Char :=
  if (pyRTrim l).getLast? = some '|' then pyRTrim (pyRTrim l).dropLast else l

/-- Python text.split of a newline, on a character list.  The recursive
result is always nonempty, so consing onto its head is total. -/
def splitNL : List Char → List (List Char)
  | [] => [[]]
  | c :: rest =>
    if c = '\n' then [] :: splitNL rest
    else (c :: (splitNL rest).headD []) :: (splitNL rest).tail

/-- Python newline-join of lines, on character lists. -/
def intercalateNL : List (List Char) → List Char
  | [] => []
  | [l] => l
  | l :: ls => l ++ '\n' :: intercalateNL ls

/-- Worker for the newline-run collapse: n pending newlines have been
read; a run of three or more newlines is emitted as exactly two. -/
def collapseGo : Nat → List Char → List Char
  | n, [] => List.replicate (min n 2) '\n'
  | n, c :: rest =>
    if c = '\n' then collapseGo (n + 1) rest
    else List.replicate (min n 2) '\n' ++ c :: collapseGo 0 rest

/-- The re.sub replacing every run of three or more newlines by two. -/
def collapseNL (cs : List Char) : List Char := collapseGo 0 cs

/-- Core of clean_extracted_text on a nonempty character list: filter out
junk lines, strip trailing pipes, rejoin, collapse blank-line runs,
strip. -/
def cleanCore (cs : List Char) : List Char :=
  pyStrip (collapseNL (intercalateNL
    (((splitNL cs).filter (fun l => !junkLine l)).map stripTrailingPipe)))

/-- clean_extracted_text (news_fetcher.py): the falsy guard returns an
empty text unchanged, otherwise the line-filtering pipeline runs. -/
def cleanExtractedText (s : String) : String :=
  if s.data = [] then s else ⟨cleanCore s.data⟩

/-!
## No output line of the post-filter ends in a pipe

The trailing-pipe junk pattern removes every line whose last
non-whitespace character is a pipe, and joining, newline-run collapse and
stripping cannot create such a line.  The invariant is tracked by a
character-level predicate hasBadPipe.
-/

/-- Non-newline Python whitespace. -/
def wsNoNl (c : Char) : Bool := pyWs c && !(c = '\n')

/-- The text starts with non-newline whitespace running into a newline or
the end; placed after a pipe this closes a bad line ending. -/
def pipeWsEnd : List Char → Bool
  | [] => true
  | c :: rest => if c = '\n' then true else if wsNoNl c then pipeWsEnd rest else false

/-- Some line of the text ends in a pipe followed only by whitespace. -/
def hasBadPipe : List Char → Bool
  | [] => false
  | c :: rest => (decide (c = '|') && pipeWsEnd rest) || hasBadPipe rest

theorem pipeWsEnd_append (a b : List Char) (ha : pipeWsEnd a = true)
    (hb : b = [] ∨ ∃ b2, b = '\n' :: b2) : pipeWsEnd (a ++ b) = true := by
  induction a with
  | nil =>
    rcases hb with h | ⟨b2, h⟩ <;> simp [h, pipeWsEnd]
  | cons c a2 ih =>
    by_cases hc : c = '\n'
    · simp [pipeWsEnd, hc]
    · by_cases hw : wsNoNl c = true
      · simp only [pipeWsEnd, hc, if_false, hw, if_true] at ha
        simp [List.cons_append, pipeWsEnd, hc, hw, ih ha]
      · simp [pipeWsEnd, hc, hw] at ha

theorem pipeWsEnd_of_append_nl (a X : List Char)
    (h : pipeWsEnd (a ++ '\n' :: X) = true) : pipeWsEnd a = true := by
  induction a with
  | nil => rfl
  | cons c a2 ih =>
    by_cases hc : c = '\n'
    · simp [pipeWsEnd, hc]
    · by_cases hw : wsNoNl c = true
      · simp only [List.cons_append, pipeWsEnd, hc, if_false, hw, if_true] at h ⊢
        exact ih h
      · simp [pipeWsEnd, hc, hw] at h

theorem hasBadPipe_of_append_nl (a X : List Char)
    (h : hasBadPipe (a ++ '\n' :: X) = true) :
    hasBadPipe a = true ∨ hasBadPipe X = true := by
  induction a with
  | nil =>
    right
    simpa [hasBadPipe] using h
  | cons c a2 ih =>
    simp only [List.cons_append, hasBadPipe, Bool.or_eq_true,
      Bool.and_eq_true, decide_eq_true_eq] at h ⊢
    rcases h with ⟨hc, hw⟩ | h
    · exact Or.inl (Or.inl ⟨hc, pipeWsEnd_of_append_nl a2 X hw⟩)
    · rcases ih h with h1 | h1
      · exact Or.inl (Or.inr h1)
      · exact Or.inr h1

theorem hasBadPipe_append (a b : List Char) (ha : hasBadPipe a = true)
    (hb : b = [] ∨ ∃ b2, b = '\n' :: b2) : hasBadPipe (a ++ b) = true := by
  induction a with
  | nil => simp [hasBadPipe] at ha
  | cons c a2 ih =>
    simp only [hasBadPipe, Bool.or_eq_true, Bool.and_eq_true,
      decide_eq_true_eq] at ha
    simp only [List.cons_append, hasBadPipe, Bool.or_eq_true,
      Bool.and_eq_true, decide_eq_true_eq]
    rcases ha with ⟨hc, hw⟩ | h
    · exact Or.inl ⟨hc, pipeWsEnd_append a2 b hw hb⟩
    · exact Or.inr (ih h)

theorem hasBadPipe_intercalate (L : List (List Char))
    (h : ∀ l ∈ L, hasBadPipe l = false) :
    hasBadPipe (intercalateNL L) = false := by
  induction L with
  | nil => rfl
  | cons l ls ih =>
    cases ls with
    | nil => simpa [intercalateNL] using h l (by simp)
    | cons x xs =>
      simp only [intercalateNL]
      by_contra hb
      rw [Bool.not_eq_false] at hb
      rcases hasBadPipe_of_append_nl l _ hb with h1 | h1
      · rw [h l (by simp)] at h1
        exact Bool.false_ne_true h1
      · rw [ih (fun m hm => h m (List.mem_cons_of_mem l hm))] at h1
        exact Bool.false_ne_true h1

theorem collapseGo_pos_head (cs : List Char) :
    ∀ n, 1 ≤ n → ∃ t, collapseGo n cs = '\n' :: t := by
  induction cs with
  | nil =>
    intro n hn
    match n, hn with
    | 1, _ => exact ⟨[], rfl⟩
    | (m + 2), _ =>
      refine ⟨['\n'], ?_⟩
      simp [collapseGo, Nat.min_def]
  | cons c rest ih =>
    intro n hn
    by_cases hc : c = '\n'
    · simpa [collapseGo, hc] using ih (n + 1) (by omega)
    · refine ⟨List.replicate (min n 2 - 1) '\n' ++ c :: collapseGo 0 rest, ?_⟩
      have h2 : min n 2 = 1 ∨ min n 2 = 2 := by omega
      rcases h2 with h2 | h2 <;> simp [collapseGo, hc, h2, List.replicate_succ]

theorem pipeWsEnd_collapseGo_pos (cs : List Char) (n : Nat) (hn : 1 ≤ n) :
    pipeWsEnd (collapseGo n cs) = true := by
  obtain ⟨t, ht⟩ := collapseGo_pos_head cs n hn
  simp [ht, pipeWsEnd]

theorem pipeWsEnd_collapseGo_zero (cs : List Char) :
    pipeWsEnd (collapseGo 0 cs) = pipeWsEnd cs := by
  induction cs with
  | nil => rfl
  | cons c rest ih =>
    by_cases hc : c = '\n'
    · simp [collapseGo, hc, pipeWsEnd,
        pipeWsEnd_collapseGo_pos rest 1 (by omega)]
    · by_cases hw : wsNoNl c = true
      · simp [collapseGo, hc, pipeWsEnd, hw, ih]
      · simp [collapseGo, hc, pipeWsEnd, hw]

theorem hasBadPipe_replicate_nl (k : Nat) (X : List Char) :
    hasBadPipe (List.replicate k '\n' ++ X) = hasBadPipe X := by
  induction k with
  | zero => rfl
  | succ m ih => simp [List.replicate_succ, hasBadPipe, ih]

theorem hasBadPipe_collapseGo (cs : List Char) :
    ∀ n, hasBadPipe cs = false → hasBadPipe (collapseGo n cs) = false := by
  induction cs with
  | nil =>
    intro n _
    simpa using hasBadPipe_replicate_nl (min n 2) []
  | cons c rest ih =>
    intro n h
    simp only [hasBadPipe, Bool.or_eq_false_iff, Bool.and_eq_false_iff] at h
    by_cases hc : c = '\n'
    · simpa [collapseGo, hc] using ih (n + 1) h.2
    · simp only [collapseGo, hc, if_false, hasBadPipe_replicate_nl]
      simp only [hasBadPipe, Bool.or_eq_false_iff, Bool.and_eq_false_iff,
        pipeWsEnd_collapseGo_zero]
      exact ⟨h.1, ih 0 h.2⟩

theorem hasBadPipe_of_pyLTrim (cs : List Char)
    (h : hasBadPipe (pyLTrim cs) = true) : hasBadPipe cs = true := by
  induction cs with
  | nil => simpa [pyLTrim] using h
  | cons c rest ih =>
    by_cases hw : pyWs c = true
    · simp only [pyLTrim, hw, if_true] at h
      simp [hasBadPipe, ih h]
    · simpa [pyLTrim, hw] using h

theorem pyRTrim_nil_all_ws (cs : List Char) (h : pyRTrim cs = []) :
    ∀ c ∈ cs, pyWs c = true := by
  induction cs with
  | nil => simp
  | cons c rest ih =>
    by_cases hr : pyRTrim rest = []
    · by_cases hw : pyWs c = true
      · intro d hd
        rcases List.mem_cons.mp hd with rfl | hdr
        · exact hw
        · exact ih hr d hdr
      · simp [pyRTrim, hr, hw] at h
    · simp [pyRTrim, hr] at h

theorem pipeWsEnd_all_ws (cs : List Char) (h : ∀ c ∈ cs, pyWs c = true) :
    pipeWsEnd cs = true := by
  induction cs with
  | nil => rfl
  | cons c rest ih =>
    by_cases hc : c = '\n'
    · simp [pipeWsEnd, hc]
    · have hw : wsNoNl c = true := by
        simp [wsNoNl, h c (by simp), hc]
      simp [pipeWsEnd, hc, hw, ih (fun d hd => h d (List.mem_cons_of_mem c hd))]

theorem pipeWsEnd_of_pyRTrim (cs : List Char)
    (h : pipeWsEnd (pyRTrim cs) = true) : pipeWsEnd cs = true := by
  induction cs with
  | nil => rfl
  | cons c rest ih =>
    by_cases hr : pyRTrim rest = []
    · have hws : ∀ d ∈ rest, pyWs d = true := pyRTrim_nil_all_ws rest hr
      by_cases hc : c = '\n'
      · simp [pipeWsEnd, hc]
      · by_cases hw : pyWs c = true
        · have hwn : wsNoNl c = true := by simp [wsNoNl, hw, hc]
          simp [pipeWsEnd, hc, hwn, pipeWsEnd_all_ws rest hws]
        · simp only [pyRTrim, hr, if_true, hw, if_false] at h
          simp [pipeWsEnd, hc, wsNoNl, hw] at h
    · simp only [pyRTrim, hr, if_false] at h
      by_cases hc : c = '\n'
      · simp [pipeWsEnd, hc]
      · by_cases hw : wsNoNl c = true
        · simp only [pipeWsEnd, hc, if_false, hw, if_true] at h ⊢
          exact ih h
        · simp [pipeWsEnd, hc, hw] at h

theorem hasBadPipe_of_pyRTrim (cs : List Char)
    (h : hasBadPipe (pyRTrim cs) = true) : hasBadPipe cs = true := by
  induction cs with
  | nil => simpa [pyRTrim] using h
  | cons c rest ih =>
    by_cases hr : pyRTrim rest = []
    · by_cases hw : pyWs c = true
      · simp [pyRTrim, hr, hw, hasBadPipe] at h
      · simp only [pyRTrim, hr, if_true, hw, if_false] at h
        simp only [hasBadPipe, Bool.or_eq_true, Bool.and_eq_true,
          decide_eq_true_eq] at h ⊢
        rcases h with ⟨hc, _⟩ | h
        · exact Or.inl ⟨hc, pipeWsEnd_all_ws rest (pyRTrim_nil_all_ws rest hr)⟩
        · simp [hasBadPipe] at h
    · simp only [pyRTrim, hr, if_false] at h
      simp only [hasBadPipe, Bool.or_eq_true, Bool.and_eq_true,
        decide_eq_true_eq] at h ⊢
      rcases h with ⟨hc, hwend⟩ | h
      · exact Or.inl ⟨hc, pipeWsEnd_of_pyRTrim rest hwend⟩
      · exact Or.inr (ih h)

theorem hasBadPipe_of_pyStrip (cs : List Char)
    (h : hasBadPipe (pyStrip cs) = true) : hasBadPipe cs = true :=
  hasBadPipe_of_pyLTrim cs (hasBadPipe_of_pyRTrim (pyLTrim cs) h)

theorem pipeWsEnd_no_nl_all_ws (w : List Char) (h : pipeWsEnd w = true)
    (hnl : '\n' ∉ w) : ∀ c ∈ w, pyWs c = true := by
  induction w with
  | nil => simp
  | cons c rest ih =>
    have hc : ¬(c = '\n') := fun he => hnl (he ▸ List.mem_cons_self c rest)
    by_cases hw : wsNoNl c = true
    · intro d hd
      rcases List.mem_cons.mp hd with rfl | hdr
      · exact (Bool.and_eq_true _ _ |>.mp hw).1
      · simp only [pipeWsEnd, hc, if_false, hw, if_true] at h
        exact ih h (fun hm => hnl (List.mem_cons_of_mem c hm)) d hdr
    · simp [pipeWsEnd, hc, hw] at h

theorem all_ws_pyRTrim_nil (cs : List Char) (h : ∀ c ∈ cs, pyWs c = true) :
    pyRTrim cs = [] := by
  induction cs with
  | nil => rfl
  | cons c rest ih =>
    have hr : pyRTrim rest = [] :=
      ih (fun d hd => h d (List.mem_cons_of_mem c hd))
    simp [pyRTrim, hr, h c (List.mem_cons_self c rest)]

theorem getLast?_cons_of_ne_nil {c : Char} {l : List Char} (h : l ≠ []) :
    (c :: l).getLast? = l.getLast? := by
  cases l with
  | nil => exact absurd rfl h
  | cons x xs => simp [List.getLast?_cons_cons]

theorem endsPipeWs_of_hasBadPipe (l : List Char) (hnl : '\n' ∉ l)
    (h : hasBadPipe l = true) : endsPipeWs l = true := by
  induction l with
  | nil => simp [hasBadPipe] at h
  | cons c rest ih =>
    simp only [hasBadPipe, Bool.or_eq_true, Bool.and_eq_true,
      decide_eq_true_eq] at h
    rcases h with ⟨hc, hwend⟩ | h
    · subst hc
      have hws : ∀ d ∈ rest, pyWs d = true :=
        pipeWsEnd_no_nl_all_ws rest hwend
          (fun hm => hnl (List.mem_cons_of_mem _ hm))
      have hr : pyRTrim rest = [] := all_ws_pyRTrim_nil rest hws
      simp [endsPipeWs, pyRTrim, hr, pyWs]
    · have htail : endsPipeWs rest = true :=
        ih (fun hm => hnl (List.mem_cons_of_mem c hm)) h
      simp only [endsPipeWs, decide_eq_true_eq] at htail ⊢
      have hne : pyRTrim rest ≠ [] := by
        intro he
        rw [he] at htail
        simp at htail
      simp only [pyRTrim, hne, if_false]
      rw [getLast?_cons_of_ne_nil hne]
      exact htail

theorem junkLine_of_endsPipeWs (l : List Char) (h : endsPipeWs l = true) :
    junkLine l = true := by
  simp [junkLine, h]

theorem hasBadPipe_eq_false_of_not_junk (l : List Char) (hnl : '\n' ∉ l)
    (h : junkLine l = false) : hasBadPipe l = false := by
  by_contra hb
  rw [Bool.not_eq_false] at hb
  have ht := junkLine_of_endsPipeWs l (endsPipeWs_of_hasBadPipe l hnl hb)
  rw [h] at ht
  exact Bool.false_ne_true ht

theorem splitNL_ne_nil (cs : List Char) : splitNL cs ≠ [] := by
  cases cs with
  | nil => simp [splitNL]
  | cons c rest =>
    by_cases hc : c = '\n' <;> simp [splitNL, hc]

theorem headD_mem {L : List (List Char)} (h : L ≠ []) : L.headD [] ∈ L := by
  cases L with
  | nil => exact absurd rfl h
  | cons x xs => simp

theorem splitNL_head_decomp (cs : List Char) :
    ∃ r, cs = (splitNL cs).headD [] ++ r ∧
      (r = [] ∨ ∃ r2, r = '\n' :: r2) := by
  induction cs with
  | nil => exact ⟨[], rfl, Or.inl rfl⟩
  | cons c rest ih =>
    by_cases hc : c = '\n'
    · subst hc
      exact ⟨'\n' :: rest, by simp [splitNL], Or.inr ⟨rest, rfl⟩⟩
    · obtain ⟨r, hr, hror⟩ := ih
      refine ⟨r, ?_, hror⟩
      simp only [splitNL, hc, if_false, List.headD_cons, List.cons_append]
      exact congrArg (c :: ·) hr

theorem mem_splitNL_nl_free (cs : List Char) :
    ∀ l ∈ splitNL cs, '\n' ∉ l := by
  induction cs with
  | nil =>
    intro l hl
    simp [splitNL] at hl
    simp [hl]
  | cons c rest ih =>
    intro l hl
    by_cases hc : c = '\n'
    · simp only [splitNL, hc, if_true, List.mem_cons] at hl
      rcases hl with rfl | hl
      · simp
      · exact ih l hl
    · simp only [splitNL, hc, if_false, List.mem_cons] at hl
      rcases hl with rfl | hl
      · intro hm
        rcases List.mem_cons.mp hm with he | hm2
        · exact hc he.symm
        · exact ih _ (headD_mem (splitNL_ne_nil rest)) hm2
      · exact ih l (List.mem_of_mem_tail hl)

theorem mem_splitNL_hasBadPipe (cs : List Char) :
    ∀ l ∈ splitNL cs, hasBadPipe l = true → hasBadPipe cs = true := by
  induction cs with
  | nil =>
    intro l hl hb
    simp [splitNL] at hl
    rw [hl] at hb
    simp [hasBadPipe] at hb
  | cons c rest ih =>
    intro l hl hb
    by_cases hc : c = '\n'
    · simp only [splitNL, hc, if_true, List.mem_cons] at hl
      rcases hl with rfl | hl
      · simp [hasBadPipe] at hb
      · have := ih l hl hb
        simp [hc, hasBadPipe, this]
    · simp only [splitNL, hc, if_false, List.mem_cons] at hl
      rcases hl with rfl | hl
      · obtain ⟨r, hr, hror⟩ := splitNL_head_decomp rest
        simp only [hasBadPipe, Bool.or_eq_true, Bool.and_eq_true,
          decide_eq_true_eq] at hb ⊢
        rcases hb with ⟨hpipe, hwend⟩ | hb
        · refine Or.inl ⟨hpipe, ?_⟩
          rw [hr]
          exact pipeWsEnd_append _ r hwend hror
        · refine Or.inr ?_
          rw [hr]
          exact hasBadPipe_append _ r hb hror
      · have := ih l (List.mem_of_mem_tail hl) hb
        simp [hasBadPipe, this]

theorem stripTrailingPipe_of_not_junk (l : List Char)
    (h : junkLine l = false) : stripTrailingPipe l = l := by
  have he : endsPipeWs l = false := by
    by_contra hb
    rw [Bool.not_eq_false] at hb
    have ht := junkLine_of_endsPipeWs l hb
    rw [h] at ht
    exact Bool.false_ne_true ht
  simp only [endsPipeWs, decide_eq_false_iff_not] at he
  simp [stripTrailingPipe, he]

theorem cleanCore_no_bad (cs : List Char) :
    hasBadPipe (cleanCore cs) = false := by
  have hkept : ∀ l ∈ ((splitNL cs).filter (fun l => !junkLine l)).map
      stripTrailingPipe, hasBadPipe l = false := by
    intro l hl
    obtain ⟨l0, hl0, hmap⟩ := List.mem_map.mp hl
    have hfil := List.mem_filter.mp hl0
    have hjunk : junkLine l0 = false := by
      have := hfil.2
      simpa using this
    rw [stripTrailingPipe_of_not_junk l0 hjunk] at hmap
    subst hmap
    exact hasBadPipe_eq_false_of_not_junk l0
      (mem_splitNL_nl_free cs l0 hfil.1) hjunk
  have hjoin : hasBadPipe (intercalateNL (((splitNL cs).filter
      (fun l => !junkLine l)).map stripTrailingPipe)) = false :=
    hasBadPipe_intercalate _ hkept
  have hcol : hasBadPipe (collapseNL (intercalateNL (((splitNL cs).filter
      (fun l => !junkLine l)).map stripTrailingPipe))) = false :=
    hasBadPipe_collapseGo _ 0 hjoin
  by_contra hb
  rw [Bool.not_eq_false] at hb
  unfold cleanCore at hb
  have h1 := hasBadPipe_of_pyStrip _ hb
  rw [hcol] at h1
  exact Bool.false_ne_true h1

theorem splitNL_nl_free (b : List Char) (h : '\n' ∉ b) : splitNL b = [b] := by
  induction b with
  | nil => rfl
  | cons c rest ih =>
    have hc : ¬(c = '\n') := fun he => h (he ▸ List.mem_cons_self c rest)
    have hr := ih (fun hm => h (List.mem_cons_of_mem c hm))
    simp [splitNL, hc, hr]

theorem splitNL_append_nl_free (a cs : List Char) (h : '\n' ∉ a) :
    splitNL (a ++ cs)
      = (a ++ (splitNL cs).headD []) :: (splitNL cs).tail := by
  induction a with
  | nil =>
    rcases hs : splitNL cs with _ | ⟨x, xs⟩
    · exact absurd hs (splitNL_ne_nil cs)
    · simp [hs]
  | cons c rest ih =>
    have hc : ¬(c = '\n') := fun he => h (he ▸ List.mem_cons_self c rest)
    have hr := ih (fun hm => h (List.mem_cons_of_mem c hm))
    simp [splitNL, hc, hr]

theorem collapseGo_zero_append (a X : List Char) (h : '\n' ∉ a) :
    collapseGo 0 (a ++ X) = a ++ collapseGo 0 X := by
  induction a with
  | nil => rfl
  | cons c rest ih =>
    have hc : ¬(c = '\n') := fun he => h (he ▸ List.mem_cons_self c rest)
    have hr := ih (fun hm => h (List.mem_cons_of_mem c hm))
    simp [collapseGo, hc, hr]

theorem collapseGo_zero_nl_free (b : List Char) (h : '\n' ∉ b) :
    collapseGo 0 b = b := by
  induction b with
  | nil => rfl
  | cons c rest ih =>
    have hc : ¬(c = '\n') := fun he => h (he ▸ List.mem_cons_self c rest)
    have hr := ih (fun hm => h (List.mem_cons_of_mem c hm))
    simp [collapseGo, hc, hr]

theorem pyRTrim_eq_self (cs : List Char) (d : Char)
    (hlast : cs.getLast? = some d) (hd : pyWs d = false) :
    pyRTrim cs = cs := by
  induction cs with
  | nil => simp at hlast
  | cons c rest ih =>
    cases rest with
    | nil =>
      simp only [List.getLast?_singleton, Option.some_inj] at hlast
      subst hlast
      simp [pyRTrim, hd]
    | cons x xs =>
      rw [List.getLast?_cons_cons] at hlast
      have hr := ih hlast
      have hrc : pyRTrim (c :: x :: xs)
          = if pyRTrim (x :: xs) = [] then (if pyWs c then [] else [c])
            else c :: pyRTrim (x :: xs) := rfl
      rw [hrc, hr]
      simp

theorem cleanCore_interior_blanks (a b : List Char)
    (hja : junkLine a = false) (hjb : junkLine b = false)
    (hna : '\n' ∉ a) (hnb : '\n' ∉ b)
    (haw : ∃ c t, a = c :: t ∧ pyWs c = false)
    (hbw : ∃ d, b.getLast? = some d ∧ pyWs d = false) :
    cleanCore (a ++ '\n' :: '\n' :: '\n' :: '\n' :: '\n' :: b)
      = a ++ '\n' :: '\n' :: b := by
  obtain ⟨c0, t0, ha0, hcw⟩ := haw
  obtain ⟨d0, hlast, hdw⟩ := hbw
  have hsplit : splitNL (a ++ '\n' :: '\n' :: '\n' :: '\n' :: '\n' :: b)
      = [a, [], [], [], [], b] := by
    rw [splitNL_append_nl_free a _ hna]
    simp [splitNL, splitNL_nl_free b hnb]
  have hjnil : junkLine ([] : List Char) = false := by decide
  have hsnil : stripTrailingPipe ([] : List Char) = [] := by decide
  have hb_ne : b ≠ [] := by
    intro he
    rw [he] at hlast
    simp at hlast
  unfold cleanCore
  rw [hsplit]
  simp only [List.filter, hja, hjb, hjnil, Bool.not_false, Bool.not_true,
    List.map, hsnil, stripTrailingPipe_of_not_junk a hja,
    stripTrailingPipe_of_not_junk b hjb]
  simp only [intercalateNL, List.nil_append]
  have hcollapse : collapseNL (a ++ '\n' :: '\n' :: '\n' :: '\n' :: '\n' :: b)
      = a ++ '\n' :: '\n' :: b := by
    unfold collapseNL
    rw [collapseGo_zero_append a _ hna]
    cases b with
    | nil => exact absurd rfl hb_ne
    | cons bx bxs =>
      have hbx : ¬(bx = '\n') :=
        fun he => hnb (he ▸ List.mem_cons_self bx bxs)
      have hfree : collapseGo 0 (bx :: bxs) = bx :: bxs :=
        collapseGo_zero_nl_free (bx :: bxs) hnb
      have hfree2 : collapseGo 0 bxs = bxs := by
        simp only [collapseGo, hbx, if_false] at hfree
        simpa using hfree
      have h1 : collapseGo 0
          ('\n' :: '\n' :: '\n' :: '\n' :: '\n' :: bx :: bxs)
          = collapseGo 5 (bx :: bxs) := rfl
      have h2 : collapseGo 5 (bx :: bxs)
          = List.replicate (min 5 2) '\n' ++ bx :: collapseGo 0 bxs := by
        simp [collapseGo, hbx]
      rw [h1, h2, hfree2]
      rfl
  rw [hcollapse]
  unfold pyStrip
  have hltrim : pyLTrim (a ++ '\n' :: '\n' :: b)
      = a ++ '\n' :: '\n' :: b := by
    rw [ha0]
    simp [pyLTrim, hcw]
  rw [hltrim]
  have hb_last : (a ++ '\n' :: '\n' :: b).getLast? = some d0 := by
    rw [List.getLast?_append_of_ne_nil _ (by simp)]
    rw [List.getLast?_cons_cons]
    rw [getLast?_cons_of_ne_nil hb_ne]
    exact hlast
  exact pyRTrim_eq_self _ d0 hb_last hdw

/-- C9 counterexample: the input consisting of four blank lines followed
by the line Hello contains a run of four consecutive blank lines, yet the
cleaned output is just Hello with no blank line at all: the final strip
removes a blank-line run at the start of the text entirely instead of
collapsing it to exactly one blank line. -/
theorem clean_blank_run_at_start_counterexample :
    splitNL ("\n\n\n\nHello".data)
      = [[], [], [], [], "Hello".data] ∧
    cleanExtractedText "\n\n\n\nHello" = "Hello" ∧
    splitNL ((cleanExtractedText "\n\n\n\nHello").data)
      = ["Hello".data] := by
  refine ⟨by decide, by decide, by decide⟩

/-- C9 (amended): for every input text, no line of the cleaned output is
the line consisting of a piped Got-a-Tip phrase nor the separator line of
pipes and dashes; and a run of four consecutive blank lines strictly
between two kept lines (lines that no junk pattern removes, free of
newlines, the first starting and the second ending in non-whitespace) is
collapsed to exactly one blank line.  A blank-line run at the start or
end of the text is removed entirely by the final strip, as the
counterexample shows. -/
theorem clean_extracted_text_junk_and_blank_runs :
    (∀ s : String,
      "| Got a Tip? |".data ∉ splitNL (cleanExtractedText s).data ∧
      "|---|".data ∉ splitNL (cleanExtractedText s).data) ∧
    (∀ a b : List Char, junkLine a = false → junkLine b = false →
      '\n' ∉ a → '\n' ∉ b →
      (∃ c t, a = c :: t ∧ pyWs c = false) →
      (∃ d, b.getLast? = some d ∧ pyWs d = false) →
      cleanExtractedText ⟨a ++ '\n' :: '\n' :: '\n' :: '\n' :: '\n' :: b⟩
          = ⟨a ++ '\n' :: '\n' :: b⟩ ∧
      splitNL (cleanExtractedText
          ⟨a ++ '\n' :: '\n' :: '\n' :: '\n' :: '\n' :: b⟩).data
        = [a, [], b]) := by
  constructor
  · intro s
    by_cases hs : s.data = []
    · constructor <;>
      · intro hmem
        rw [cleanExtractedText, if_pos hs, hs] at hmem
        simp [splitNL] at hmem
    · have hdata : (cleanExtractedText s).data = cleanCore s.data := by
        rw [cleanExtractedText, if_neg hs]
      constructor <;>
      · intro hmem
        rw [hdata] at hmem
        have hbad := mem_splitNL_hasBadPipe (cleanCore s.data) _ hmem
          (by decide)
        rw [cleanCore_no_bad s.data] at hbad
        exact Bool.false_ne_true hbad
  · intro a b hja hjb hna hnb haw hbw
    have hcore := cleanCore_interior_blanks a b hja hjb hna hnb haw hbw
    obtain ⟨c0, t0, ha0, _⟩ := haw
    have hne : (a ++ '\n' :: '\n' :: '\n' :: '\n' :: '\n' :: b) ≠ [] := by
      rw [ha0]
      simp
    have hval : cleanExtractedText
        ⟨a ++ '\n' :: '\n' :: '\n' :: '\n' :: '\n' :: b⟩
        = ⟨a ++ '\n' :: '\n' :: b⟩ := by
      rw [cleanExtractedText, if_neg hne]
      exact congrArg String.mk hcore
    refine ⟨hval, ?_⟩
    rw [hval]
    rw [splitNL_append_nl_free a _ hna]
    simp [splitNL, splitNL_nl_free b hnb]

/-- Witness for C9: the theorem applied at concrete inputs; the junk line
is absent from a cleaned concrete text, and a concrete interior run of
four blank lines collapses to exactly one. -/
theorem clean_extracted_text_junk_and_blank_runs_witness :
    "| Got a Tip? |".data ∉
      splitNL (cleanExtractedText "| Got a Tip? |\nkeep").data ∧
    cleanExtractedText "Hello\n\n\n\n\nWorld" = "Hello\n\nWorld" := by
  constructor
  · exact (clean_extracted_text_junk_and_blank_runs.1 "| Got a Tip? |\nkeep").1
  · have harg : "Hello\n\n\n\n\nWorld"
        = (⟨"Hello".data ++ '\n' :: '\n' :: '\n' :: '\n' :: '\n' ::
            "World".data⟩ : String) := by decide
    have hres : "Hello\n\nWorld"
        = (⟨"Hello".data ++ '\n' :: '\n' :: "World".data⟩ : String) := by
      decide
    rw [harg, hres]
    exact (clean_extracted_text_junk_and_blank_runs.2 "Hello".data
      "World".data (by decide) (by decide) (by decide) (by decide)
      ⟨'H', "ello".data, by decide, by decide⟩
      ⟨'d', by decide, by decide⟩).1

/-- An arbitrary source row used to exhibit dependence of the sufficiency
decision on the item link. -/
def exampleSrc : SrcRow :=
  { id := 1, name := "Example Blog", url := "https://example.com",
    rssUrl := some "https://example.com/feed", enabled := true,
    category := some "blog" }

/-- C5 counterexample: for one and the same source and one and the same
pair of cleaned lengths (summary 200, content 5000), the decision differs
between two item links, because the known-truncated allowlist is a
substring test on the item link, not a property of the source: the
decision is not a function of (source, summary length, content length). -/
theorem sufficiency_not_function_of_source :
    shouldFetchFor exampleSrc "https://example.com/story" 200 5000 = false ∧
    shouldFetchFor exampleSrc "https://example.com/hardwired-story" 200 5000
      = true := by
  refine ⟨by decide, by decide⟩

/-- C5 (amended): the content-sufficiency decision is a pure function of
the item link URL and the two cleaned lengths, independent of the source
row; for content length 1500 and summary length 1400 it decides true for
every URL, and for content length 5000 and summary length 200 it decides
false whenever the URL is not on the known-truncated allowlist. -/
theorem needs_full_fetch_evaluations :
    (∀ src1 src2 : SrcRow, ∀ url sl cl,
      shouldFetchFor src1 url sl cl = shouldFetchFor src2 url sl cl) ∧
    (∀ url : String, needsFullFetch url 1400 1500 = true) ∧
    (∀ url : String, strContains url "techcrunch" = false →
      strContains url "wired" = false →
      needsFullFetch url 200 5000 = false) := by
  refine ⟨fun _ _ _ _ _ => rfl, fun url => ?_, fun url h1 h2 => ?_⟩
  · simp [needsFullFetch]
  · simp [needsFullFetch, h1, h2]

/-- Witness for C5: the amended theorem applied at a concrete URL. -/
theorem needs_full_fetch_evaluations_witness :
    needsFullFetch "https://example.com/a" 1400 1500 = true ∧
    strContains "https://example.com/a" "techcrunch" = false ∧
    strContains "https://example.com/a" "wired" = false ∧
    needsFullFetch "https://example.com/a" 200 5000 = false :=
  ⟨needs_full_fetch_evaluations.2.1 "https://example.com/a", by decide,
    by decide, needs_full_fetch_evaluations.2.2 "https://example.com/a"
      (by decide) (by decide)⟩

/-!
## Extraction pipeline fetch_url_content (news_fetcher.py, lines 179-346)

The external collaborators of the pipeline are supplied as oracle
functions: the HTTP client (curl_cffi), trafilatura.extract, the
BeautifulSoup preprocessing inside extract_content_with_llm (which can
raise, e.g. the junk_patterns name lookup when the first tag loop body
never ran), the remote model call, and the last-resort BeautifulSoup
get_text.  An oracle returning an error models the Python call raising;
every raise inside extract_content_with_llm is caught there and yields
None, and every raise inside fetch_url_content is caught by its outer
except and yields the empty string.  The second component of a result
counts the generate_remote calls made.
-/

structure FetchEnv where
  http : String → Except String (Nat × String)
  trafExtract : String → Except String (Option String)
  soupBody : String → Except String String
  llm : String → String → Except String String
  soupText : String → Except String String
  settings : String → Option String
  configMinimaxApiKey : String

/-- get_setting("minimax_api_key") or config.MINIMAX_API_KEY: the Python
or-chain takes the stored setting unless it is falsy. -/
def resolveApiKey (env : FetchEnv) : String :=
  match env.settings "minimax_api_key" with
  | some v => if v = "" then env.configMinimaxApiKey else v
  | none => env.configMinimaxApiKey

/-- extract_content_with_llm: without an API key the function returns
None before any model call; a raise in the soup preprocessing is caught
and yields None; the cleaned HTML is truncated to 30000 characters; a
model error yields None; a returned sentinel yields None; otherwise the
response is stripped and post-filtered.  The candidate text argument is
computed by the Python code but never interpolated into the prompt. -/
def extractContentWithLLM (env : FetchEnv) (url html : String)
    (_candidate : Option String) : Option String × Nat :=
  if resolveApiKey env = "" then (none, 0)
  else
    match env.soupBody html with
    | .error _ => (none, 0)
    | .ok body =>
      let bodyT := if 30000 < body.length
        then strTake body 30000 ++ "...(truncated)" else body
      match env.llm url bodyT with
      | .error _ => (none, 1)
      | .ok refined =>
        let result := pyStripStr refined
        if strContains result "ERROR: No content" then (none, 1)
        else (some (cleanExtractedText result), 1)

/-- Fallback stages 3 and 4 of fetch_url_content: the trafilatura text
when truthy and longer than 100 characters, else the soup get_text. -/
def fetchFallback (env : FetchEnv) (html : String) (trafOpt : Option String)
    (calls : Nat) : Except String String × Nat :=
  match trafOpt with
  | some t =>
    if 100 < t.length then (.ok t, calls)
    else
      match env.soupText html with
      | .ok s => (.ok s, calls)
      | .error e => (.error e, calls)
  | none =>
    match env.soupText html with
    | .ok s => (.ok s, calls)
    | .error e => (.error e, calls)

/-- Body of the try block of fetch_url_content: fetch, status check,
trafilatura pass, LLM refinement, thresholded fallbacks. -/
def fetchUrlContentAux (env : FetchEnv) (url : String) :
    Except String String × Nat :=
  match env.http url with
  | .error e => (.error e, 0)
  | .ok (status, html) =>
    if 400 ≤ status then (.error "HTTPStatusError", 0)
    else
      match env.trafExtract html with
      | .error e => (.error e, 0)
      | .ok trafOpt =>
        match extractContentWithLLM env url html trafOpt with
        | (some r, calls) =>
          if 300 < r.length then (.ok r, calls)
          else fetchFallback env html trafOpt calls
        | (none, calls) => fetchFallback env html trafOpt calls

/-- fetch_url_content: the outer except turns any uncaught raise into
the empty string, so the caller always receives a plain string. -/
def fetchUrlContent (env : FetchEnv) (url : String) : String × Nat :=
  match fetchUrlContentAux env url with
  | (.ok s, n) => (s, n)
  | (.error _, n) => ("", n)

theorem fetchFallback_snd (env : FetchEnv) (html : String)
    (trafOpt : Option String) (calls : Nat) :
    (fetchFallback env html trafOpt calls).2 = calls := by
  unfold fetchFallback
  rcases trafOpt with _ | t
  · rcases h : env.soupText html with e | s <;> simp [h]
  · by_cases ht : 100 < t.length
    · simp [ht]
    · rcases h : env.soupText html with e | s <;> simp [ht, h]

theorem extractContentWithLLM_snd (env : FetchEnv) (url html : String)
    (cand : Option String) :
    (extractContentWithLLM env url html cand).2
      = if resolveApiKey env = "" then 0
        else
          match env.soupBody html with
          | .error _ => 0
          | .ok _ => 1 := by
  by_cases hk : resolveApiKey env = ""
  · simp [extractContentWithLLM, hk]
  · rcases hsb : env.soupBody html with e | body
    · simp [extractContentWithLLM, hk, hsb]
    · simp only [extractContentWithLLM, hk, if_false, hsb]
      rcases hl : env.llm url (if 30000 < body.length
          then strTake body 30000 ++ "...(truncated)" else body)
        with e2 | refined
      · simp [hl]
      · by_cases hs : strContains (pyStripStr refined) "ERROR: No content"
            = true
        · simp [hl, hs]
        · simp [hl, hs]

theorem fetchUrlContent_snd (env : FetchEnv) (url : String) (status : Nat)
    (html : String) (trafOpt : Option String)
    (hh : env.http url = .ok (status, html)) (hlt : status < 400)
    (htraf : env.trafExtract html = .ok trafOpt) :
    (fetchUrlContent env url).2
      = (extractContentWithLLM env url html trafOpt).2 := by
  have hnle : ¬(400 ≤ status) := by omega
  rcases hE : extractContentWithLLM env url html trafOpt with ⟨refOpt, calls⟩
  have hfb : ∀ m, (fetchFallback env html trafOpt m).2 = m :=
    fun m => fetchFallback_snd env html trafOpt m
  cases refOpt with
  | some r =>
    by_cases hr : 300 < r.length
    · simp [fetchUrlContent, fetchUrlContentAux, hh, hnle, htraf, hE, hr]
    · rcases hres : fetchFallback env html trafOpt calls with ⟨v, m⟩
      have := hfb calls
      rw [hres] at this
      cases v with
      | ok s =>
        simp [fetchUrlContent, fetchUrlContentAux, hh, hnle, htraf, hE, hr,
          hres, this]
      | error e =>
        simp [fetchUrlContent, fetchUrlContentAux, hh, hnle, htraf, hE, hr,
          hres, this]
  | none =>
    rcases hres : fetchFallback env html trafOpt calls with ⟨v, m⟩
    have := hfb calls
    rw [hres] at this
    cases v with
    | ok s =>
      simp [fetchUrlContent, fetchUrlContentAux, hh, hnle, htraf, hE,
        hres, this]
    | error e =>
      simp [fetchUrlContent, fetchUrlContentAux, hh, hnle, htraf, hE,
        hres, this]

/-- C1: fetch_url_content never raises to its caller: the embedding
returns a plain string in all cases.  On a network raise, an HTTP error
status, or a trafilatura raise, the result is the empty string (total
failure before any text was produced); otherwise the returned string is
the empty string (total failure further on) or the output of the LLM
refinement stage, the trafilatura stage, or the last-resort soup stage. -/
theorem fetch_url_content_never_raises (env : FetchEnv) (url : String) :
    (∀ e, env.http url = .error e → fetchUrlContent env url = ("", 0)) ∧
    (∀ status html, env.http url = .ok (status, html) → 400 ≤ status →
      fetchUrlContent env url = ("", 0)) ∧
    (∀ status html e, env.http url = .ok (status, html) → status < 400 →
      env.trafExtract html = .error e → fetchUrlContent env url = ("", 0)) ∧
    (∀ status html trafOpt, env.http url = .ok (status, html) →
      status < 400 → env.trafExtract html = .ok trafOpt →
      (fetchUrlContent env url).1 = "" ∨
      (extractContentWithLLM env url html trafOpt).1
          = some (fetchUrlContent env url).1 ∨
      trafOpt = some (fetchUrlContent env url).1 ∨
      env.soupText html = .ok (fetchUrlContent env url).1) := by
  refine ⟨?_, ?_, ?_, ?_⟩
  · intro e he
    simp [fetchUrlContent, fetchUrlContentAux, he]
  · intro status html hh hge
    simp [fetchUrlContent, fetchUrlContentAux, hh, hge]
  · intro status html e hh hlt htraf
    have hnle : ¬(400 ≤ status) := by omega
    simp [fetchUrlContent, fetchUrlContentAux, hh, hnle, htraf]
  · intro status html trafOpt hh hlt htraf
    have hnle : ¬(400 ≤ status) := by omega
    rcases hE : extractContentWithLLM env url html trafOpt
      with ⟨refOpt, calls⟩
    cases refOpt with
    | some r =>
      by_cases hr : 300 < r.length
      · right; left
        simp [fetchUrlContent, fetchUrlContentAux, hh, hnle, htraf, hE, hr]
      · have haux : fetchUrlContentAux env url
            = fetchFallback env html trafOpt calls := by
          simp [fetchUrlContentAux, hh, hnle, htraf, hE, hr]
        rcases trafOpt with _ | t
        · rcases hst : env.soupText html with e | s
          · left
            simp [fetchUrlContent, haux, fetchFallback, hst]
          · right; right; right
            simp [fetchUrlContent, haux, fetchFallback, hst]
        · by_cases ht : 100 < t.length
          · right; right; left
            simp [fetchUrlContent, haux, fetchFallback, ht]
          · rcases hst : env.soupText html with e | s
            · left
              simp [fetchUrlContent, haux, fetchFallback, ht, hst]
            · right; right; right
              simp [fetchUrlContent, haux, fetchFallback, ht, hst]
    | none =>
      have haux : fetchUrlContentAux env url
          = fetchFallback env html trafOpt calls := by
        simp [fetchUrlContentAux, hh, hnle, htraf, hE]
      rcases trafOpt with _ | t
      · rcases hst : env.soupText html with e | s
        · left
          simp [fetchUrlContent, haux, fetchFallback, hst]
        · right; right; right
          simp [fetchUrlContent, haux, fetchFallback, hst]
      · by_cases ht : 100 < t.length
        · right; right; left
          simp [fetchUrlContent, haux, fetchFallback, ht]
        · rcases hst : env.soupText html with e | s
          · left
            simp [fetchUrlContent, haux, fetchFallback, ht, hst]
          · right; right; right
            simp [fetchUrlContent, haux, fetchFallback, ht, hst]

/-- A fetch environment whose network call raises. -/
def fetchEnvDown : FetchEnv :=
  { http := fun _ => .error "ConnectError",
    trafExtract := fun _ => .ok none,
    soupBody := fun _ => .ok "",
    llm := fun _ _ => .error "unused",
    soupText := fun _ => .ok "",
    settings := fun _ => none,
    configMinimaxApiKey := "" }

/-- A fetch environment where every stage succeeds and the refinement
response is long enough to be used. -/
def fetchEnvUp : FetchEnv :=
  { http := fun _ => .ok (200, "<html><body>page</body></html>"),
    trafExtract := fun _ => .ok (some "short trafilatura text"),
    soupBody := fun _ => .ok "<body>page</body>",
    llm := fun _ _ => .ok (String.mk (List.replicate 400 'r')),
    soupText := fun _ => .ok "soup text",
    settings := fun k => if k = "minimax_api_key" then some "KEY" else none,
    configMinimaxApiKey := "" }

/-- Witness for C1: the theorem applied at a failing and at a succeeding
concrete environment. -/
theorem fetch_url_content_never_raises_witness :
    fetchUrlContent fetchEnvDown "https://example.com/a" = ("", 0) ∧
    ((fetchUrlContent fetchEnvUp "https://example.com/a").1 = "" ∨
      (extractContentWithLLM fetchEnvUp "https://example.com/a"
          "<html><body>page</body></html>"
          (some "short trafilatura text")).1
        = some (fetchUrlContent fetchEnvUp "https://example.com/a").1 ∨
      some "short trafilatura text"
        = some (fetchUrlContent fetchEnvUp "https://example.com/a").1 ∨
      fetchEnvUp.soupText "<html><body>page</body></html>"
        = .ok (fetchUrlContent fetchEnvUp "https://example.com/a").1) := by
  constructor
  · exact (fetch_url_content_never_raises fetchEnvDown
      "https://example.com/a").1 "ConnectError" rfl
  · exact (fetch_url_content_never_raises fetchEnvUp
      "https://example.com/a").2.2.2 200 "<html><body>page</body></html>"
      (some "short trafilatura text") rfl (by decide) rfl

/-- A trafilatura output of 400 characters, well above the 300 threshold. -/
def cexTrafText : String := String.mk (List.replicate 400 'a')

/-- A fetch environment where trafilatura already produced 400 characters
and the AI key is configured. -/
def cexFetchEnv : FetchEnv :=
  { http := fun _ => .ok (200, "<html><body>page</body></html>"),
    trafExtract := fun _ => .ok (some cexTrafText),
    soupBody := fun _ => .ok "<body>page</body>",
    llm := fun _ _ => .ok "short refined",
    soupText := fun _ => .ok "soup text",
    settings := fun k => if k = "minimax_api_key" then some "KEY" else none,
    configMinimaxApiKey := "" }

set_option maxRecDepth 20000 in
/-- C3 counterexample: the heuristic extractor produced 400 characters,
well above the 300-character threshold, yet the AI refinement call is
still made (the call counter is 1): the refinement pass is not gated on
the trafilatura output length.  The refined output here is short, so the
trafilatura text is what is finally returned. -/
theorem llm_refinement_invoked_despite_long_trafilatura :
    cexFetchEnv.trafExtract "<html><body>page</body></html>"
      = .ok (some cexTrafText) ∧
    300 ≤ cexTrafText.length ∧
    (fetchUrlContent cexFetchEnv "https://example.com/a").2 = 1 ∧
    (fetchUrlContent cexFetchEnv "https://example.com/a").1 = cexTrafText := by
  refine ⟨rfl, by decide, by decide, by decide⟩

/-- C3 (amended): after a successful page fetch and trafilatura pass,
the AI refinement call is made exactly when an API key resolves and the
soup preprocessing does not raise, regardless of the trafilatura output
length; the refined output is used only when longer than 300 characters;
otherwise the trafilatura text is used when longer than 100 characters
(not 300); and the last-resort soup stage runs only when both prior
outputs are insufficient. -/
theorem extraction_stage_thresholds (env : FetchEnv) (url : String)
    (status : Nat) (html : String) (trafOpt : Option String)
    (hh : env.http url = .ok (status, html)) (hlt : status < 400)
    (htraf : env.trafExtract html = .ok trafOpt) :
    ((fetchUrlContent env url).2 = 1 ↔
      ¬(resolveApiKey env = "") ∧ ∃ body, env.soupBody html = .ok body) ∧
    (∀ r, (extractContentWithLLM env url html trafOpt).1 = some r →
      300 < r.length → (fetchUrlContent env url).1 = r) ∧
    ((∀ r, (extractContentWithLLM env url html trafOpt).1 = some r →
        r.length ≤ 300) →
      ∀ t, trafOpt = some t → 100 < t.length →
        (fetchUrlContent env url).1 = t) ∧
    ((∀ r, (extractContentWithLLM env url html trafOpt).1 = some r →
        r.length ≤ 300) →
      (∀ t, trafOpt = some t → t.length ≤ 100) →
      (∀ s, env.soupText html = .ok s → (fetchUrlContent env url).1 = s) ∧
      (∀ e, env.soupText html = .error e →
        (fetchUrlContent env url).1 = "")) := by
  have hnle : ¬(400 ≤ status) := by omega
  refine ⟨?_, ?_, ?_, ?_⟩
  · rw [fetchUrlContent_snd env url status html trafOpt hh hlt htraf,
      extractContentWithLLM_snd]
    by_cases hk : resolveApiKey env = ""
    · simp [hk]
    · rcases hsb : env.soupBody html with e | body
      · simp [hk, hsb]
      · simp [hk, hsb]
  · intro r hr hlen
    rcases hE : extractContentWithLLM env url html trafOpt
      with ⟨refOpt, calls⟩
    rw [hE] at hr
    simp only at hr
    subst hr
    simp [fetchUrlContent, fetchUrlContentAux, hh, hnle, htraf, hE, hlen]
  · intro hins t hts htlen
    subst hts
    rcases hE : extractContentWithLLM env url html (some t)
      with ⟨refOpt, calls⟩
    have haux : fetchUrlContentAux env url
        = fetchFallback env html (some t) calls := by
      cases refOpt with
      | some r =>
        have hrlen : r.length ≤ 300 := by
          apply hins
          rw [hE]
        have hrnot : ¬(300 < r.length) := by omega
        simp [fetchUrlContentAux, hh, hnle, htraf, hE, hrnot]
      | none =>
        simp [fetchUrlContentAux, hh, hnle, htraf, hE]
    simp [fetchUrlContent, haux, fetchFallback, htlen]
  · intro hins htins
    rcases hE : extractContentWithLLM env url html trafOpt
      with ⟨refOpt, calls⟩
    have haux : fetchUrlContentAux env url
        = fetchFallback env html trafOpt calls := by
      cases refOpt with
      | some r =>
        have hrlen : r.length ≤ 300 := by
          apply hins
          rw [hE]
        have hrnot : ¬(300 < r.length) := by omega
        simp [fetchUrlContentAux, hh, hnle, htraf, hE, hrnot]
      | none =>
        simp [fetchUrlContentAux, hh, hnle, htraf, hE]
    constructor
    · intro s hst
      rcases trafOpt with _ | t
      · simp [fetchUrlContent, haux, fetchFallback, hst]
      · have htlen : t.length ≤ 100 := htins t rfl
        have htnot : ¬(100 < t.length) := by omega
        simp [fetchUrlContent, haux, fetchFallback, htnot, hst]
    · intro e hst
      rcases trafOpt with _ | t
      · simp [fetchUrlContent, haux, fetchFallback, hst]
      · have htlen : t.length ≤ 100 := htins t rfl
        have htnot : ¬(100 < t.length) := by omega
        simp [fetchUrlContent, haux, fetchFallback, htnot, hst]

set_option maxRecDepth 20000 in
/-- Witness for C3: the amended theorem applied at a concrete succeeding
environment, where the refined output is long and is returned, and the
call counter is 1. -/
theorem extraction_stage_thresholds_witness :
    (fetchUrlContent fetchEnvUp "https://example.com/a").2 = 1 ∧
    (fetchUrlContent fetchEnvUp "https://example.com/a").1
      = cleanExtractedText (String.mk (List.replicate 400 'r')) := by
  have h := extraction_stage_thresholds fetchEnvUp "https://example.com/a"
    200 "<html><body>page</body></html>" (some "short trafilatura text")
    rfl (by decide) rfl
  constructor
  · exact h.1.mpr ⟨by decide, "<body>page</body>", rfl⟩
  · exact h.2.1 (cleanExtractedText (String.mk (List.replicate 400 'r')))
      (by decide) (by decide)

/-!
## Persistence and dedup save_news_to_db (news_fetcher.py, lines 509-545)

Each item dictionary is processed inside a try/except: a missing dict key
raises KeyError, which is caught, leaving the table unchanged for that
item, and the loop continues with the next item.  An item is modelled as
a record of optional fields where none means the key is missing.  The
news table has a UNIQUE constraint on url (db.py), so INSERT OR IGNORE
inserts only when no stored row carries the same url and otherwise
leaves the stored row untouched.
-/

/-- An item dictionary passed to save_news_to_db; none models a missing
key (category is read with .get and never raises). -/
structure SaveItem where
  title : Option String
  url : Option String
  summary : Option String
  content_raw : Option String
  source : Option String
  date : Option String
  category : Option String
deriving DecidableEq, Repr

/-- A stored row of the news table, the columns written by
save_news_to_db. -/
structure NewsRow where
  title : String
  url : String
  summary : String
  content_raw : String
  source : String
  category : Option String
  date : String
deriving DecidableEq, Repr

/-- SELECT category FROM news_sources WHERE name = ? LIMIT 1, then
row["category"] if row else None. -/
def lookupSrcCategory (sources : List SrcRow) (name : String) :
    Option String :=
  match sources.find? (fun s => s.name = name) with
  | some s => s.category
  | none => none

/-- One iteration of the save loop: resolve the category (falling back
to the source lookup when the item category is falsy), then INSERT OR
IGNORE keyed on url.  A missing key raises inside the try and leaves the
table unchanged. -/
def saveStep (sources : List SrcRow) (db : List NewsRow)
    (item : SaveItem) : List NewsRow :=
  match item.title, item.url, item.summary, item.content_raw,
      item.source, item.date with
  | some t, some u, some sm, some cr, some so, some d =>
    let category := if item.category = none ∨ item.category = some ""
      then lookupSrcCategory sources so else item.category
    if db.any (fun r => r.url = u) then db
    else db ++ [{ title := t, url := u, summary := sm, content_raw := cr,
                  source := so, category := category, date := d }]
  | _, _, _, _, _, _ => db

/-- save_news_to_db: fold the per-item step over the batch. -/
def saveNewsToDb (sources : List SrcRow) (items : List SaveItem)
    (db : List NewsRow) : List NewsRow :=
  items.foldl (saveStep sources) db

/-- The per-item processing raises (KeyError on a required key). -/
def itemRaises (item : SaveItem) : Bool :=
  item.title.isNone || item.url.isNone || item.summary.isNone
    || item.content_raw.isNone || item.source.isNone || item.date.isNone

theorem saveStep_of_raises (sources : List SrcRow) (db : List NewsRow)
    (item : SaveItem) (h : itemRaises item = true) :
    saveStep sources db item = db := by
  rcases ht : item.title with _ | t
  · simp [saveStep, ht]
  rcases hu : item.url with _ | u
  · simp [saveStep, ht, hu]
  rcases hsm : item.summary with _ | sm
  · simp [saveStep, ht, hu, hsm]
  rcases hcr : item.content_raw with _ | cr
  · simp [saveStep, ht, hu, hsm, hcr]
  rcases hso : item.source with _ | so
  · simp [saveStep, ht, hu, hsm, hcr, hso]
  rcases hd : item.date with _ | d
  · simp [saveStep, ht, hu, hsm, hcr, hso, hd]
  simp [itemRaises, ht, hu, hsm, hcr, hso, hd] at h

theorem saveStep_url_mem_noop (sources : List SrcRow) (db : List NewsRow)
    (item : SaveItem) (u : String) (hu : item.url = some u)
    (hmem : u ∈ db.map (fun r => r.url)) :
    saveStep sources db item = db := by
  have hany : db.any (fun r => r.url = u) = true := by
    rw [List.any_eq_true]
    obtain ⟨r, hr, hru⟩ := List.mem_map.mp hmem
    exact ⟨r, hr, by simp [hru]⟩
  rcases ht : item.title with _ | t
  · simp [saveStep, ht]
  rcases hsm : item.summary with _ | sm
  · simp [saveStep, ht, hu, hsm]
  rcases hcr : item.content_raw with _ | cr
  · simp [saveStep, ht, hu, hsm, hcr]
  rcases hso : item.source with _ | so
  · simp [saveStep, ht, hu, hsm, hcr, hso]
  rcases hd : item.date with _ | d
  · simp [saveStep, ht, hu, hsm, hcr, hso, hd]
  simp [saveStep, ht, hu, hsm, hcr, hso, hd, hany]

theorem saveStep_extend (sources : List SrcRow) (db : List NewsRow)
    (item : SaveItem) : db <+: saveStep sources db item := by
  rcases ht : item.title with _ | t
  · simp [saveStep, ht]
  rcases hu : item.url with _ | u
  · simp [saveStep, ht, hu]
  rcases hsm : item.summary with _ | sm
  · simp [saveStep, ht, hu, hsm]
  rcases hcr : item.content_raw with _ | cr
  · simp [saveStep, ht, hu, hsm, hcr]
  rcases hso : item.source with _ | so
  · simp [saveStep, ht, hu, hsm, hcr, hso]
  rcases hd : item.date with _ | d
  · simp [saveStep, ht, hu, hsm, hcr, hso, hd]
  by_cases hany : db.any (fun r => r.url = u) = true
  · simp [saveStep, ht, hu, hsm, hcr, hso, hd, hany]
  · simp only [saveStep, ht, hu, hsm, hcr, hso, hd, hany]
    simp [List.prefix_append]

theorem saveNews_extend (sources : List SrcRow) (items : List SaveItem)
    (db : List NewsRow) : db <+: saveNewsToDb sources items db := by
  induction items generalizing db with
  | nil => exact List.prefix_refl db
  | cons i rest ih =>
    exact List.IsPrefix.trans (saveStep_extend sources db i) (ih _)

theorem saveStep_nodup (sources : List SrcRow) (db : List NewsRow)
    (item : SaveItem)
    (h : (db.map (fun r => r.url)).Nodup) :
    ((saveStep sources db item).map (fun r => r.url)).Nodup := by
  rcases ht : item.title with _ | t
  · simpa [saveStep, ht] using h
  rcases hu : item.url with _ | u
  · simpa [saveStep, ht, hu] using h
  rcases hsm : item.summary with _ | sm
  · simpa [saveStep, ht, hu, hsm] using h
  rcases hcr : item.content_raw with _ | cr
  · simpa [saveStep, ht, hu, hsm, hcr] using h
  rcases hso : item.source with _ | so
  · simpa [saveStep, ht, hu, hsm, hcr, hso] using h
  rcases hd : item.date with _ | d
  · simpa [saveStep, ht, hu, hsm, hcr, hso, hd] using h
  by_cases hany : db.any (fun r => r.url = u) = true
  · simpa [saveStep, ht, hu, hsm, hcr, hso, hd, hany] using h
  · have hnotmem : u ∉ db.map (fun r => r.url) := by
      intro hmem
      obtain ⟨r, hr, hru⟩ := List.mem_map.mp hmem
      rw [List.any_eq_true] at hany
      exact hany ⟨r, hr, by simp [hru]⟩
    simp only [saveStep, ht, hu, hsm, hcr, hso, hd, hany, if_false,
      List.map_append]
    simp [List.nodup_append, h, hnotmem]

theorem saveNews_nodup (sources : List SrcRow) (items : List SaveItem)
    (db : List NewsRow)
    (h : (db.map (fun r => r.url)).Nodup) :
    ((saveNewsToDb sources items db).map (fun r => r.url)).Nodup := by
  induction items generalizing db with
  | nil => exact h
  | cons i rest ih => exact ih _ (saveStep_nodup sources db i h)

theorem url_mem_mono (sources : List SrcRow) (items : List SaveItem)
    (db : List NewsRow) (u : String)
    (h : u ∈ db.map (fun r => r.url)) :
    u ∈ (saveNewsToDb sources items db).map (fun r => r.url) := by
  obtain ⟨t, ht⟩ := saveNews_extend sources items db
  rw [← ht, List.map_append]
  exact List.mem_append_left _ h

theorem url_mem_after_step (sources : List SrcRow) (db : List NewsRow)
    (item : SaveItem) (u : String) (hu : item.url = some u)
    (hok : itemRaises item = false) :
    u ∈ (saveStep sources db item).map (fun r => r.url) := by
  simp only [itemRaises, Bool.or_eq_false_iff, Option.isNone_eq_false_iff,
    Option.isSome_iff_exists] at hok
  obtain ⟨⟨⟨⟨⟨⟨t, ht⟩, _⟩, ⟨sm, hsm⟩⟩, ⟨cr, hcr⟩⟩, ⟨so, hso⟩⟩, ⟨d, hd⟩⟩ := hok
  by_cases hany : db.any (fun r => r.url = u) = true
  · rw [List.any_eq_true] at hany
    obtain ⟨r, hr, hru⟩ := hany
    rw [saveStep_url_mem_noop sources db item u hu
      (List.mem_map.mpr ⟨r, hr, of_decide_eq_true hru⟩)]
    exact List.mem_map.mpr ⟨r, hr, of_decide_eq_true hru⟩
  · simp [saveStep, ht, hu, hsm, hcr, hso, hd, hany]

theorem url_mem_saveNews (sources : List SrcRow) (items : List SaveItem)
    (db : List NewsRow) (item : SaveItem) (u : String)
    (hmem : item ∈ items) (hu : item.url = some u)
    (hok : itemRaises item = false) :
    u ∈ (saveNewsToDb sources items db).map (fun r => r.url) := by
  induction items generalizing db with
  | nil => simp at hmem
  | cons i rest ih =>
    rcases List.mem_cons.mp hmem with rfl | hmem2
    · exact url_mem_mono sources rest _ u
        (url_mem_after_step sources db item u hu hok)
    · exact ih (saveStep sources db i) hmem2

theorem foldl_fixed {α β : Type} (f : β → α → β) (b : β) (l : List α)
    (h : ∀ a ∈ l, f b a = b) : l.foldl f b = b := by
  induction l with
  | nil => rfl
  | cons x xs ih =>
    rw [List.foldl_cons, h x (List.mem_cons_self x xs)]
    exact ih (fun a ha => h a (List.mem_cons_of_mem x ha))

/-- C2: article insertion is idempotent and never overwrites.  An item
whose canonical url is already stored is silently skipped, leaving the
stored row untouched; the stored table is always a prefix of the table
after a save (rows are never modified or removed); distinct urls stay
distinct; saving the same batch a second time changes nothing (zero
additional rows); and an item whose processing raises is skipped without
aborting the rest of the batch. -/
theorem save_news_to_db_idempotent_insert_only :
    (∀ (sources : List SrcRow) (db : List NewsRow) (item : SaveItem)
        (u : String), item.url = some u →
      u ∈ db.map (fun r => r.url) → saveStep sources db item = db) ∧
    (∀ (sources : List SrcRow) (items : List SaveItem)
        (db : List NewsRow), db <+: saveNewsToDb sources items db) ∧
    (∀ (sources : List SrcRow) (items : List SaveItem)
        (db : List NewsRow), (db.map (fun r => r.url)).Nodup →
      ((saveNewsToDb sources items db).map (fun r => r.url)).Nodup) ∧
    (∀ (sources : List SrcRow) (items : List SaveItem)
        (db : List NewsRow),
      saveNewsToDb sources items (saveNewsToDb sources items db)
        = saveNewsToDb sources items db) ∧
    (∀ (sources : List SrcRow) (pre : List SaveItem) (bad : SaveItem)
        (suf : List SaveItem) (db : List NewsRow),
      itemRaises bad = true →
      saveNewsToDb sources (pre ++ bad :: suf) db
        = saveNewsToDb sources (pre ++ suf) db) := by
  refine ⟨saveStep_url_mem_noop, saveNews_extend, saveNews_nodup, ?_, ?_⟩
  · intro sources items db
    apply foldl_fixed
    intro i hi
    by_cases hr : itemRaises i = true
    · exact saveStep_of_raises sources _ i hr
    · have hok : itemRaises i = false := by simpa using hr
      rcases hu : i.url with _ | u
      · exfalso
        simp [itemRaises, hu] at hok
      · exact saveStep_url_mem_noop sources _ i u hu
          (url_mem_saveNews sources items db i u hi hu hok)
  · intro sources pre bad suf db hbad
    unfold saveNewsToDb
    rw [List.foldl_append, List.foldl_append, List.foldl_cons,
      saveStep_of_raises sources _ bad hbad]

/-- A concrete item and its stored row for the C2 witness. -/
def wItem : SaveItem :=
  { title := some "T", url := some "https://ex.com/x", summary := some "S",
    content_raw := some "C", source := some "Src",
    date := some "2024-01-01", category := some "blog" }

/-- The stored row carrying the same canonical url as wItem. -/
def wRow : NewsRow :=
  { title := "T", url := "https://ex.com/x", summary := "S",
    content_raw := "C", source := "Src", category := some "blog",
    date := "2024-01-01" }

/-- An item whose title key is missing, so its processing raises. -/
def wBad : SaveItem :=
  { title := none, url := some "https://ex.com/y", summary := some "S",
    content_raw := some "C", source := some "Src", date := some "D",
    category := none }

/-- Witness for C2: the theorem applied at concrete inputs: the stored
row survives a re-save of the same url, a double save equals a single
save, and a raising item is skipped without affecting its siblings. -/
theorem save_news_to_db_idempotent_insert_only_witness :
    saveStep [] [wRow] wItem = [wRow] ∧
    saveNewsToDb [] [wItem, wItem] (saveNewsToDb [] [wItem, wItem] [])
      = saveNewsToDb [] [wItem, wItem] [] ∧
    itemRaises wBad = true ∧
    saveNewsToDb [] ([wItem] ++ wBad :: []) []
      = saveNewsToDb [] ([wItem] ++ []) [] := by
  refine ⟨?_, ?_, by decide, ?_⟩
  · exact save_news_to_db_idempotent_insert_only.1 [] [wRow] wItem
      "https://ex.com/x" rfl (by decide)
  · exact save_news_to_db_idempotent_insert_only.2.2.2.1 [] [wItem, wItem] []
  · exact save_news_to_db_idempotent_insert_only.2.2.2.2 [] [wItem] wBad []
      [] (by decide)

/-!
## Ingestion orchestrator fetch_all_news (news_fetcher.py, lines 483-506)

One task per queried source; asyncio.gather with return_exceptions
keeps the results aligned with the sources, a raising task yielding its
exception, which the merge loop replaces by an empty list.  The merge
writes into a Python dict keyed by the source name: a later source with
the same name overwrites the earlier entry in place.
-/

structure AllEnv where
  sourcesTable : List SrcRow
  fetchSource : SrcRow → Except String (List SaveItem)

/-- The sources read from the news_sources table, optionally restricted
to the enabled ones. -/
def queriedSources (env : AllEnv) (enabledOnly : Bool) : List SrcRow :=
  if enabledOnly then env.sourcesTable.filter (fun s => s.enabled)
  else env.sourcesTable

/-- Python dict assignment on an insertion-ordered association list: an
existing key keeps its position and gets the new value, a new key is
appended. -/
def dictInsert (k : String) (v : List SaveItem) :
    List (String × List SaveItem) → List (String × List SaveItem)
  | [] => [(k, v)]
  | (k0, v0) :: rest =>
    if k0 = k then (k0, v) :: rest else (k0, v0) :: dictInsert k v rest

/-- fetch_all_news: gather one result per source in order, then merge
into the dict, a raising source contributing an empty list. -/
def fetchAllNews (env : AllEnv) (enabledOnly : Bool) :
    List (String × List SaveItem) :=
  (queriedSources env enabledOnly).foldl
    (fun acc s =>
      dictInsert s.name
        (match env.fetchSource s with
         | .ok items => items
         | .error _ => []) acc)
    []

theorem dictInsert_fresh (k : String) (v : List SaveItem)
    (acc : List (String × List SaveItem)) (h : k ∉ acc.map Prod.fst) :
    dictInsert k v acc = acc ++ [(k, v)] := by
  induction acc with
  | nil => rfl
  | cons p rest ih =>
    rcases p with ⟨k0, v0⟩
    have hk0 : ¬(k0 = k) := by
      intro he
      exact h (by simp [he])
    simp only [dictInsert, hk0, if_false, List.cons_append]
    rw [ih (fun hm => h (by simp [hm]))]

theorem fold_dictInsert_fresh (val : SrcRow → List SaveItem) :
    ∀ (ss : List SrcRow) (acc : List (String × List SaveItem)),
    (ss.map (fun s => s.name)).Nodup →
    (∀ s ∈ ss, s.name ∉ acc.map Prod.fst) →
    ss.foldl (fun acc s => dictInsert s.name (val s) acc) acc
      = acc ++ ss.map (fun s => (s.name, val s)) := by
  intro ss
  induction ss with
  | nil => intro acc _ _; simp
  | cons s rest ih =>
    intro acc hnodup hfresh
    have hs : s.name ∉ acc.map Prod.fst :=
      hfresh s (List.mem_cons_self s rest)
    rw [List.foldl_cons, dictInsert_fresh s.name (val s) acc hs]
    rw [List.map_cons, List.nodup_cons] at hnodup
    rw [ih (acc ++ [(s.name, val s)]) hnodup.2 ?_]
    · simp
    · intro s2 hs2 hmem
      rw [List.map_append, List.mem_append] at hmem
      rcases hmem with hmem | hmem
      · exact hfresh s2 (List.mem_cons_of_mem s hs2) hmem
      · simp only [List.map_cons, List.map_nil, List.mem_singleton] at hmem
        exact hnodup.1 (hmem ▸ List.mem_map_of_mem (fun x => x.name) hs2)

/-- An item returned by the failing-isolation counterexample source. -/
def cexAllItem : SaveItem :=
  { title := some "story", url := some "https://a.example/1",
    summary := some "s", content_raw := some "c", source := some "A",
    date := some "2024-01-01", category := some "media" }

/-- Two enabled sources sharing the name A; the schema of news_sources
has no UNIQUE constraint on name. -/
def dupSrcA : SrcRow :=
  { id := 1, name := "A", url := "https://a.example",
    rssUrl := some "https://a.example/feed", enabled := true,
    category := some "media" }

/-- The second source named A, whose fetch raises. -/
def dupSrcB : SrcRow :=
  { id := 2, name := "A", url := "https://b.example",
    rssUrl := some "https://b.example/feed", enabled := true,
    category := some "media" }

/-- The environment for the counterexample: the first A succeeds with one
item, the second A raises. -/
def cexAllEnv : AllEnv :=
  { sourcesTable := [dupSrcA, dupSrcB],
    fetchSource := fun s =>
      if s.id = 1 then .ok [cexAllItem] else .error "boom" }

/-- C6 counterexample: two queried sources share the name A; the first
fetches one item successfully and the second raises, yet the returned
map has a single key whose value is the empty list: the successful
source does not contribute its result and the map does not have one key
per queried source. -/
theorem fetch_all_duplicate_name_overwrites :
    cexAllEnv.fetchSource dupSrcA = .ok [cexAllItem] ∧
    (queriedSources cexAllEnv true).length = 2 ∧
    fetchAllNews cexAllEnv true = [("A", [])] := by
  refine ⟨rfl, by decide, by decide⟩

/-- C6 (amended): when the queried sources have pairwise distinct names,
fetch_all_news returns exactly one entry per queried source in order,
keyed by source name, where a source whose fetch raises any exception
contributes the empty list and every other source contributes its own
result; with duplicate names a later source overwrites the earlier entry
in place, as the counterexample shows. -/
theorem fetch_all_isolates_failures (env : AllEnv) (enabledOnly : Bool)
    (hnodup : ((queriedSources env enabledOnly).map
      (fun s => s.name)).Nodup) :
    fetchAllNews env enabledOnly
      = (queriedSources env enabledOnly).map (fun s =>
          (s.name,
            match env.fetchSource s with
            | .ok items => items
            | .error _ => [])) ∧
    (∀ s ∈ queriedSources env enabledOnly, ∀ e,
      env.fetchSource s = .error e →
      (s.name, ([] : List SaveItem)) ∈ fetchAllNews env enabledOnly) ∧
    (∀ s ∈ queriedSources env enabledOnly, ∀ items,
      env.fetchSource s = .ok items →
      (s.name, items) ∈ fetchAllNews env enabledOnly) ∧
    (fetchAllNews env enabledOnly).length
      = (queriedSources env enabledOnly).length := by
  have hmain : fetchAllNews env enabledOnly
      = (queriedSources env enabledOnly).map (fun s =>
          (s.name,
            match env.fetchSource s with
            | .ok items => items
            | .error _ => [])) := by
    unfold fetchAllNews
    rw [fold_dictInsert_fresh
      (fun s => match env.fetchSource s with
        | .ok items => items
        | .error _ => [])
      (queriedSources env enabledOnly) [] hnodup (by simp)]
    simp
  refine ⟨hmain, ?_, ?_, ?_⟩
  · intro s hs e he
    rw [hmain]
    refine List.mem_map.mpr ⟨s, hs, ?_⟩
    rw [he]
  · intro s hs items hi
    rw [hmain]
    refine List.mem_map.mpr ⟨s, hs, ?_⟩
    rw [hi]
  · rw [hmain, List.length_map]

/-- An item for the C6 witness environment. -/
def witAllItem : SaveItem :=
  { title := some "good story", url := some "https://good.example/1",
    summary := some "s", content_raw := some "c", source := some "Good",
    date := some "2024-01-02", category := some "media" }

/-- A succeeding source for the C6 witness. -/
def witSrcGood : SrcRow :=
  { id := 1, name := "Good", url := "https://good.example",
    rssUrl := some "https://good.example/feed", enabled := true,
    category := some "media" }

/-- A raising source for the C6 witness. -/
def witSrcBad : SrcRow :=
  { id := 2, name := "Bad", url := "https://bad.example",
    rssUrl := some "https://bad.example/feed", enabled := true,
    category := some "media" }

/-- The C6 witness environment: distinct names, one source raising. -/
def witAllEnv : AllEnv :=
  { sourcesTable := [witSrcGood, witSrcBad],
    fetchSource := fun s =>
      if s.id = 1 then .ok [witAllItem] else .error "timeout" }

/-- Witness for C6: the amended theorem applied at a concrete
environment with distinct names and one failing source. -/
theorem fetch_all_isolates_failures_witness :
    fetchAllNews witAllEnv true = [("Good", [witAllItem]), ("Bad", [])] := by
  rw [(fetch_all_isolates_failures witAllEnv true (by decide)).1]
  decide

/-!
## JSON values and the tolerant response parsing of analyze_article

The analysis cache stores JSON text; json.dumps and json.loads are
inverse on JSON values, so the stored TEXT column is modelled as holding
the parsed value directly, with none standing for a stored string that
does not parse (a corrupted entry).  The raw model response, however, is
an arbitrary string run through the multi-strategy extraction of
analyze_article, so an executable JSON parser over strings is embedded;
numbers are modelled as integers (the payloads compared in the claims
contain none).
-/

inductive JVal where
  | null : JVal
  | bool : Bool → JVal
  | num : Int → JVal
  | str : String → JVal
  | arr : List JVal → JVal
  | obj : List (String × JVal) → JVal
deriving Repr

/-- Read a key of a JSON object (insertion-ordered pair list). -/
def getKey (flds : List (String × JVal)) (k : String) : Option JVal :=
  match flds.find? (fun p => p.1 = k) with
  | some p => some p.2
  | none => none

/-- Python dict assignment: an existing key keeps its position and gets
the new value, a new key is appended. -/
def setKey (flds : List (String × JVal)) (k : String) (v : JVal) :
    List (String × JVal) :=
  if flds.any (fun p => p.1 = k) then
    flds.map (fun p => if p.1 = k then (p.1, v) else p)
  else flds ++ [(k, v)]

/-- Python dict key membership. -/
def hasKey (flds : List (String × JVal)) (k : String) : Bool :=
  flds.any (fun p => p.1 = k)

/-- Python truthiness of a JSON value. -/
def pyTruthy : JVal → Bool
  | .null => false
  | .bool b => b
  | .num n => decide (n ≠ 0)
  | .str s => decide (s ≠ "")
  | .arr l => !l.isEmpty
  | .obj f => !f.isEmpty

/-- JSON whitespace accepted between tokens. -/
def jsonWs (c : Char) : Bool :=
  c = ' ' || c = '\t' || c = '\n' || c = '\r'

/-- Hexadecimal digit value. -/
def hexVal (c : Char) : Option Nat :=
  if '0' ≤ c ∧ c ≤ '9' then some (c.toNat - 48)
  else if 'a' ≤ c ∧ c ≤ 'f' then some (c.toNat - 87)
  else if 'A' ≤ c ∧ c ≤ 'F' then some (c.toNat - 55)
  else none

/-- JSON string body after the opening quote: accumulate characters in
reverse, handling the escape sequences; raw control characters are
rejected as in strict json.loads. -/
def parseJStrGo : Nat → List Char → List Char →
    Option (String × List Char)
  | 0, _, _ => none
  | fuel + 1, acc, cs =>
    match cs with
    | [] => none
    | '"' :: rest => some (String.mk acc.reverse, rest)
    | '\\' :: e :: rest =>
      match e with
      | '"' => parseJStrGo fuel ('"' :: acc) rest
      | '\\' => parseJStrGo fuel ('\\' :: acc) rest
      | '/' => parseJStrGo fuel ('/' :: acc) rest
      | 'b' => parseJStrGo fuel ('\x08' :: acc) rest
      | 'f' => parseJStrGo fuel ('\x0c' :: acc) rest
      | 'n' => parseJStrGo fuel ('\n' :: acc) rest
      | 'r' => parseJStrGo fuel ('\r' :: acc) rest
      | 't' => parseJStrGo fuel ('\t' :: acc) rest
      | 'u' =>
        match rest with
        | h1 :: h2 :: h3 :: h4 :: rest2 =>
          match hexVal h1, hexVal h2, hexVal h3, hexVal h4 with
          | some a, some b, some c, some d =>
            parseJStrGo fuel
              (Char.ofNat (((a * 16 + b) * 16 + c) * 16 + d) :: acc) rest2
          | _, _, _, _ => none
        | _ => none
      | _ => none
    | '\\' :: [] => none
    | c :: rest =>
      if c.toNat < 32 then none else parseJStrGo fuel (c :: acc) rest

/-- JSON integer literal; a fraction or exponent makes the number a
float, which the model does not cover, so it is rejected. -/
def parseJNum (cs : List Char) : Option (JVal × List Char) :=
  let neg := match cs with
    | '-' :: _ => true
    | _ => false
  let cs1 := if neg then cs.drop 1 else cs
  let digits := cs1.takeWhile Char.isDigit
  let rest := cs1.dropWhile Char.isDigit
  if digits = [] then none
  else if 1 < digits.length ∧ digits.headD '0' = '0' then none
  else
    match rest with
    | '.' :: _ => none
    | 'e' :: _ => none
    | 'E' :: _ => none
    | _ =>
      let v : Nat := digits.foldl (fun n c => n * 10 + (c.toNat - 48)) 0
      some (.num (if neg then -(v : Int) else (v : Int)), rest)

/-- Python dict construction from parsed key-value pairs in order: a
duplicate key keeps its first position and takes the later value. -/
def dedupPairs (ps : List (String × JVal)) : List (String × JVal) :=
  ps.foldl (fun acc p => setKey acc p.1 p.2) []

mutual

/-- JSON value parser with fuel; returns the value and the rest. -/
def parseJVal : Nat → List Char → Option (JVal × List Char)
  | 0, _ => none
  | fuel + 1, cs0 =>
    let cs := List.dropWhile jsonWs cs0
    match cs with
    | [] => none
    | 'n' :: rest =>
      if rest.take 3 = ['u', 'l', 'l'] then some (.null, rest.drop 3)
      else none
    | 't' :: rest =>
      if rest.take 3 = ['r', 'u', 'e'] then some (.bool true, rest.drop 3)
      else none
    | 'f' :: rest =>
      if rest.take 4 = ['a', 'l', 's', 'e'] then
        some (.bool false, rest.drop 4)
      else none
    | '"' :: rest =>
      match parseJStrGo fuel [] rest with
      | some (s, rest2) => some (.str s, rest2)
      | none => none
    | '[' :: rest =>
      match List.dropWhile jsonWs rest with
      | ']' :: rest3 => some (.arr [], rest3)
      | _ =>
        match parseJArr fuel rest with
        | some (items, rest3) => some (.arr items, rest3)
        | none => none
    | '{' :: rest =>
      match List.dropWhile jsonWs rest with
      | '}' :: rest3 => some (.obj [], rest3)
      | _ =>
        match parseJObj fuel rest with
        | some (ps, rest3) => some (.obj (dedupPairs ps), rest3)
        | none => none
    | _ => parseJNum cs

/-- Nonempty JSON array tail: value, then comma and more, or the
closing bracket. -/
def parseJArr : Nat → List Char → Option (List JVal × List Char)
  | 0, _ => none
  | fuel + 1, cs =>
    match parseJVal fuel cs with
    | some (v, rest) =>
      match List.dropWhile jsonWs rest with
      | ',' :: rest3 =>
        match parseJArr fuel rest3 with
        | some (vs, rest4) => some (v :: vs, rest4)
        | none => none
      | ']' :: rest3 => some ([v], rest3)
      | _ => none
    | none => none

/-- Nonempty JSON object tail: quoted key, colon, value, then comma and
more, or the closing brace. -/
def parseJObj : Nat → List Char →
    Option (List (String × JVal) × List Char)
  | 0, _ => none
  | fuel + 1, cs =>
    match List.dropWhile jsonWs cs with
    | '"' :: rest =>
      match parseJStrGo fuel [] rest with
      | some (k, rest2) =>
        match List.dropWhile jsonWs rest2 with
        | ':' :: rest4 =>
          match parseJVal fuel rest4 with
          | some (v, rest5) =>
            match List.dropWhile jsonWs rest5 with
            | ',' :: rest7 =>
              match parseJObj fuel rest7 with
              | some (ps, rest8) => some ((k, v) :: ps, rest8)
              | none => none
            | '}' :: rest7 => some ([(k, v)], rest7)
            | _ => none
          | none => none
        | _ => none
      | none => none
    | _ => none

end

/-- json.loads: parse one value and require only whitespace after it. -/
def jsonLoads (s : String) : Option JVal :=
  match parseJVal (3 * s.length + 3) s.data with
  | some (v, rest) =>
    if List.dropWhile jsonWs rest = [] then some v else none
  | none => none

/-- Index of the first occurrence of a character, Python str.find. -/
def idxOfChar (c : Char) : List Char → Option Nat
  | [] => none
  | x :: rest =>
    if x = c then some 0 else (idxOfChar c rest).map (fun i => i + 1)

/-- Index of the last occurrence of a character, Python str.rfind. -/
def lastIdxOfChar (c : Char) (cs : List Char) : Option Nat :=
  (idxOfChar c cs.reverse).map (fun i => cs.length - 1 - i)

/-- The markdown-stripping strategy of analyze_article: strip the text,
drop a leading triple-backtick json marker and a trailing triple
backtick, then json.loads. -/
def parseAiMarkdown (text : String) : Option JVal :=
  let cleaned := pyStripStr text
  let c1 := if strStartsWith cleaned "```json" then strDrop cleaned 7
    else cleaned
  let c2 := if strEndsWith c1 "```" then strDropRight c1 3 else c1
  jsonLoads c2

/-- The robust JSON extraction of analyze_article.  The greedy DOTALL
regex matches exactly when a brace pair exists in order, and its match
is the substring from the first opening to the last closing brace; if
json.loads fails on it, the aggressive second attempt parses the very
same substring and fails too.  When the regex does not match, the
markdown strip is tried; on failure the second attempt parses an empty
or reversed slice, which also fails.  So the result is the parse of the
brace slice when a pair exists, else of the markdown-stripped text. -/
def parseAiJson (text : String) : Option JVal :=
  let cs := text.data
  match idxOfChar '{' cs, lastIdxOfChar '}' cs with
  | some i, some j =>
    if i < j then jsonLoads (String.mk ((cs.drop i).take (j - i + 1)))
    else parseAiMarkdown text
  | _, _ => parseAiMarkdown text

/-!
## Analysis cache analyze_article (article_analyzer.py, lines 320-535)

State: the article_analysis table, the news table columns the function
touches, the settings table, and a counter of generate_remote calls.
Environment: the model as an oracle from the assembled prompt data (the
static template text is carried by the scope and mode fields), the
user-level context provider, and the configured default model name.
Python exceptions are PyErr values: the two ValueError raises and the
cache-hit TypeErrors and AttributeErrors escape to the caller, while
exceptions inside the main try block are caught and turned into an
error payload.  A persistence exception strikes before conn.commit, so
the transaction is discarded: persistence is all-or-nothing.
-/

inductive PyErr where
  | valueError : String → PyErr
  | typeError : String → PyErr
  | attributeError : String → PyErr
  | keyError : String → PyErr
deriving Repr, DecidableEq

def pyErrMsg : PyErr → String
  | .valueError m => m
  | .typeError m => m
  | .attributeError m => m
  | .keyError m => m

/-- A row of the news table as read by analyze_article. -/
structure ARow where
  id : Nat
  title : String
  content_raw : Option String
  summary : Option String
deriving Repr

/-- A row of the article_analysis table; content holds the parsed JSON
of the stored TEXT, none standing for a corrupted entry. -/
structure AnalysisRow where
  newsId : Nat
  scope : String
  mode : String
  content : Option JVal
  modelUsed : String
deriving Repr

structure AnaState where
  analysis : List AnalysisRow
  news : List ARow
  settings : String → Option String
  aiCalls : Nat

/-- The varying parts of the prompt assembled by analyze_article; the
surrounding template text is a static function of scope and mode. -/
structure PromptData where
  scope : String
  mode : String
  title : String
  content : String
  userLevelContext : String
deriving Repr, DecidableEq

structure AnaEnv where
  aiResponse : PromptData → Except String String
  vocabContext : Option Nat → String
  configDefaultModel : String

structure AnaArgs where
  newsId : Nat
  provider : Option String
  model : Option String
  apiKey : String
  scope : String
  userMode : String
  baseUrl : Option String
  force : Bool

/-- The keys of PROMPT_REGISTRY. -/
def validModes : List String := ["english_learner", "ai_learner"]

/-- The scopes of each registry entry (identical for both modes). -/
def registryScopes : List String := ["summary", "structure", "vocabulary"]

/-- Python x or y or "" over optional strings. -/
def pyOrStr (a b : Option String) : String :=
  match a with
  | some s => if s = "" then b.getD "" else s
  | none => b.getD ""

/-- Python k in v for a JSON value: dict key membership, list membership
(string equality against elements), substring for strings, TypeError
otherwise. -/
def pyIn (k : String) : JVal → Except PyErr Bool
  | .obj f => .ok (hasKey f k)
  | .arr l => .ok (l.any (fun v =>
      match v with
      | .str s => decide (s = k)
      | _ => false))
  | .str s => .ok (strContains s k)
  | _ => .error (.typeError "argument of type is not iterable")

/-- Python v[k] for a string key. -/
def pyGetItem (v : JVal) (k : String) : Except PyErr JVal :=
  match v with
  | .obj f =>
    match getKey f k with
    | some x => .ok x
    | none => .error (.keyError k)
  | .arr _ => .error (.typeError "list indices must be integers")
  | .str _ => .error (.typeError "string indices must be integers")
  | _ => .error (.typeError "object is not subscriptable")

/-- Python v[k] = x for a string key. -/
def pySetItem (v : JVal) (k : String) (x : JVal) : Except PyErr JVal :=
  match v with
  | .obj f => .ok (.obj (setKey f k x))
  | _ => .error (.typeError "object does not support item assignment")

/-- Python for item in v over the cached vocabulary value: a list yields
its elements; an empty string or dict yields nothing; a nonempty string
yields one-character strings and a nonempty dict yields its string keys,
whose .get then raises AttributeError; other values are not iterable. -/
def pyIterVocab : JVal → Except PyErr (List JVal)
  | .arr l => .ok l
  | .str s =>
    if s = "" then .ok []
    else .error (.attributeError "str object has no attribute get")
  | .obj f =>
    if f.isEmpty then .ok []
    else .error (.attributeError "str object has no attribute get")
  | _ => .error (.typeError "object is not iterable")

/-- The vocabulary keep-filter shared by the cache-hit loop (lines
373-379) and the post-parse loop (lines 479-489): both append an item
exactly when its term is truthy and, lowercased, a substring of the
lowercased content; item.get on a non-dict raises AttributeError, and
.lower() on a truthy non-string term raises AttributeError. -/
def pyVocabFilter (check : String) : List JVal → Except PyErr (List JVal)
  | [] => .ok []
  | item :: rest =>
    match item with
    | .obj f =>
      let keepE : Except PyErr Bool :=
        match getKey f "term" with
        | none => .ok false
        | some t =>
          if pyTruthy t then
            match t with
            | .str s => .ok (strContains check (lowerStr s))
            | _ => .error (.attributeError "lower")
          else .ok false
      match keepE with
      | .error e => .error e
      | .ok keep =>
        match pyVocabFilter check rest with
        | .error e => .error e
        | .ok tail => .ok (if keep then item :: tail else tail)
    | _ => .error (.attributeError "object has no attribute get")

/-- get_setting("user_id") parsed as in analyze_article: an integer only
when the stored value is a nonempty digit string. -/
def readUserId (settings : String → Option String) : Option Nat :=
  match settings "user_id" with
  | some v =>
    if v ≠ "" ∧ v.data.all Char.isDigit then v.toNat? else none
  | none => none

/-- ON CONFLICT(news_id, scope, mode) DO UPDATE: replace content and
model in place, else append. -/
def upsertAnalysis (tbl : List AnalysisRow) (row : AnalysisRow) :
    List AnalysisRow :=
  if tbl.any (fun r =>
      r.newsId = row.newsId ∧ r.scope = row.scope ∧ r.mode = row.mode) then
    tbl.map (fun r =>
      if r.newsId = row.newsId ∧ r.scope = row.scope ∧ r.mode = row.mode
      then { r with content := row.content, modelUsed := row.modelUsed }
      else r)
  else tbl ++ [row]

/-- UPDATE news SET summary = ? WHERE id = ?. -/
def updateNewsSummary (news : List ARow) (id : Nat) (s : String) :
    List ARow :=
  news.map (fun r => if r.id = id then { r with summary := some s } else r)

/-- SELECT content FROM article_analysis WHERE news_id scope mode. -/
def findAnalysis (tbl : List AnalysisRow) (id : Nat)
    (scope mode : String) : Option AnalysisRow :=
  tbl.find? (fun r => r.newsId = id ∧ r.scope = scope ∧ r.mode = mode)

/-- SELECT ... FROM news WHERE id = ?. -/
def findNews (news : List ARow) (id : Nat) : Option ARow :=
  news.find? (fun r => r.id = id)

/-- The prompt data assembled on the generate path; the user-level
context is injected only for vocabulary in english_learner mode. -/
def buildPrompt (env : AnaEnv) (st : AnaState)
    (scope mode title content : String) : PromptData :=
  { scope := scope, mode := mode, title := title, content := content,
    userLevelContext :=
      if scope = "vocabulary" ∧ mode = "english_learner"
      then env.vocabContext (readUserId st.settings) else "" }

/-- The error payload returned when the main try block catches. -/
def errObj (scope msg : String) : JVal :=
  .obj [("scope", .str scope), ("error", .str msg)]

/-- The payload returned when every JSON-parsing strategy failed. -/
def parseErrObj (scope raw : String) : JVal :=
  .obj [("scope", .str scope),
        ("error", .str "Error parsing AI response."),
        ("raw_response",
          .str (if raw = "" then "Empty response" else strTake raw 2000))]

/-- Cache-hit handling (lines 361-385): set the scope key on the cached
payload (a TypeError on a non-dict escapes to the caller), and for the
vocabulary scope re-validate every cached term against the current
article text, dropping terms no longer found; the filtered view is only
returned, never written back. -/
def cacheHitResult (st : AnaState) (newsId : Nat) (scope : String)
    (v : JVal) : Except PyErr JVal :=
  match pySetItem v "scope" (.str scope) with
  | .error e => .error e
  | .ok v1 =>
    if scope = "vocabulary" then
      match v1 with
      | .obj f1 =>
        if hasKey f1 "vocabulary" then
          match findNews st.news newsId with
          | some nrow =>
            let check := lowerStr (pyOrStr nrow.content_raw nrow.summary)
            match getKey f1 "vocabulary" with
            | some vv =>
              match pyIterVocab vv with
              | .error e => .error e
              | .ok items =>
                match pyVocabFilter check items with
                | .error e => .error e
                | .ok filtered =>
                  .ok (.obj (setKey f1 "vocabulary" (.arr filtered)))
            | none => .ok v1
          | none => .ok v1
        else .ok v1
      | _ => .ok v1
    else .ok v1

/-- The generate path of analyze_article (lines 387-534): look up the
article, build the prompt, call the model, extract JSON, validate
vocabulary terms, persist all-or-nothing, set the scope key, with the
outer except turning internal raises into an error payload. -/
def analyzeGenerate (env : AnaEnv) (newsId : Nat) (scope mode : String)
    (modelArg : Option String) (st : AnaState) :
    Except PyErr JVal × AnaState :=
  match findNews st.news newsId with
  | none => (.error (.valueError "News article not found"), st)
  | some nrow =>
    let title := nrow.title
    let content := pyOrStr nrow.content_raw nrow.summary
    let truncated := strTake content 20000
    let prompt := buildPrompt env st scope mode title truncated
    let modelName := match modelArg with
      | some m => m
      | none => env.configDefaultModel
    let st1 := { st with aiCalls := st.aiCalls + 1 }
    match env.aiResponse prompt with
    | .error msg => (.ok (errObj scope ("Analysis failed: " ++ msg)), st1)
    | .ok raw =>
      match parseAiJson raw with
      | none => (.ok (parseErrObj scope raw), st1)
      | some data =>
        let vres : Except PyErr JVal :=
          if scope = "vocabulary" then
            match pyIn "vocabulary" data with
            | .error e => .error e
            | .ok true =>
              match pyGetItem data "vocabulary" with
              | .error e => .error e
              | .ok vv =>
                match pyIterVocab vv with
                | .error e => .error e
                | .ok items =>
                  match pyVocabFilter (lowerStr content) items with
                  | .error e => .error e
                  | .ok filtered => pySetItem data "vocabulary" (.arr filtered)
            | .ok false => .ok data
          else .ok data
        match vres with
        | .error e =>
          (.ok (errObj scope ("Analysis failed: " ++ pyErrMsg e)), st1)
        | .ok data1 =>
          let persisted : Except PyErr (List AnalysisRow × List ARow) :=
            let newTbl := upsertAnalysis st1.analysis
              { newsId := newsId, scope := scope, mode := mode,
                content := some data1, modelUsed := modelName }
            if scope = "summary" then
              match pyIn "summary" data1 with
              | .error e => .error e
              | .ok true =>
                match pyGetItem data1 "summary" with
                | .error e => .error e
                | .ok sv =>
                  match sv with
                  | .str s =>
                    if s = "" then .ok (newTbl, st1.news)
                    else .ok (newTbl, updateNewsSummary st1.news newsId s)
                  | _ => .ok (newTbl, st1.news)
              | .ok false => .ok (newTbl, st1.news)
            else .ok (newTbl, st1.news)
          let st2 := match persisted with
            | .ok (tbl, nws) => { st1 with analysis := tbl, news := nws }
            | .error _ => st1
          match pySetItem data1 "scope" (.str scope) with
          | .ok final => (.ok final, st2)
          | .error e =>
            (.ok (errObj scope ("Analysis failed: " ++ pyErrMsg e)), st2)

/-- analyze_article: default an unknown user_mode to english_learner,
reject an invalid scope with ValueError before touching the cache, then
serve from the cache unless forced or absent or corrupted. -/
def analyzeArticle (env : AnaEnv) (a : AnaArgs) (st : AnaState) :
    Except PyErr JVal × AnaState :=
  let mode := if validModes.contains a.userMode then a.userMode
    else "english_learner"
  if registryScopes.contains a.scope = false then
    (.error (.valueError "Invalid analysis scope"), st)
  else
    let cached := if a.force then none
      else findAnalysis st.analysis a.newsId a.scope mode
    match cached with
    | some row =>
      match row.content with
      | some v => (cacheHitResult st a.newsId a.scope v, st)
      | none => analyzeGenerate env a.newsId a.scope mode a.model st
    | none => analyzeGenerate env a.newsId a.scope mode a.model st

theorem getKey_cons (p : String × JVal) (rest : List (String × JVal))
    (k : String) :
    getKey (p :: rest) k = if p.1 = k then some p.2 else getKey rest k := by
  by_cases hpk : p.1 = k
  · simp [getKey, List.find?_cons_of_pos, hpk]
  · rw [if_neg hpk]
    unfold getKey
    rw [List.find?_cons_of_neg]
    simp [hpk]

theorem hasKey_cons (p : String × JVal) (rest : List (String × JVal))
    (k : String) :
    hasKey (p :: rest) k = (decide (p.1 = k) || hasKey rest k) := by
  simp [hasKey]

theorem getKey_map_subst (f : List (String × JVal)) (k k2 : String)
    (v : JVal) (h : ¬(k = k2)) :
    getKey (f.map (fun p => if p.1 = k2 then (p.1, v) else p)) k
      = getKey f k := by
  induction f with
  | nil => rfl
  | cons p rest ih =>
    rw [List.map_cons, getKey_cons, getKey_cons]
    have hfst : (if p.1 = k2 then (p.1, v) else p).1 = p.1 := by
      split <;> rfl
    rw [hfst]
    by_cases hpk : p.1 = k
    · rw [if_pos hpk, if_pos hpk]
      have hp2 : ¬(p.1 = k2) := by
        rw [hpk]
        exact h
      rw [if_neg hp2]
    · rw [if_neg hpk, if_neg hpk]
      exact ih

theorem getKey_append_single (f : List (String × JVal)) (k k2 : String)
    (v : JVal) (h : ¬(k = k2)) :
    getKey (f ++ [(k2, v)]) k = getKey f k := by
  induction f with
  | nil =>
    have : ¬(k2 = k) := fun he => h he.symm
    simp [getKey, List.find?, this]
  | cons p rest ih =>
    rw [List.cons_append, getKey_cons, getKey_cons]
    by_cases hpk : p.1 = k
    · rw [if_pos hpk, if_pos hpk]
    · rw [if_neg hpk, if_neg hpk]
      exact ih

theorem getKey_setKey_ne (f : List (String × JVal)) (k k2 : String)
    (v : JVal) (h : ¬(k = k2)) :
    getKey (setKey f k2 v) k = getKey f k := by
  unfold setKey
  split
  · exact getKey_map_subst f k k2 v h
  · exact getKey_append_single f k k2 v h

theorem hasKey_map_subst (f : List (String × JVal)) (k k2 : String)
    (v : JVal) :
    hasKey (f.map (fun p => if p.1 = k2 then (p.1, v) else p)) k
      = hasKey f k := by
  induction f with
  | nil => rfl
  | cons p rest ih =>
    rw [List.map_cons, hasKey_cons, hasKey_cons]
    have hfst : (if p.1 = k2 then (p.1, v) else p).1 = p.1 := by
      split <;> rfl
    rw [hfst, ih]

theorem hasKey_append_single (f : List (String × JVal)) (k k2 : String)
    (v : JVal) (h : ¬(k = k2)) :
    hasKey (f ++ [(k2, v)]) k = hasKey f k := by
  induction f with
  | nil =>
    have : ¬(k2 = k) := fun he => h he.symm
    simp [hasKey, this]
  | cons p rest ih =>
    rw [List.cons_append, hasKey_cons, hasKey_cons, ih]

theorem hasKey_setKey_ne (f : List (String × JVal)) (k k2 : String)
    (v : JVal) (h : ¬(k = k2)) :
    hasKey (setKey f k2 v) k = hasKey f k := by
  unfold setKey
  split
  · exact hasKey_map_subst f k k2 v
  · exact hasKey_append_single f k k2 v h

theorem hasKey_of_getKey (f : List (String × JVal)) (k : String)
    (v : JVal) (h : getKey f k = some v) : hasKey f k = true := by
  induction f with
  | nil => simp [getKey] at h
  | cons p rest ih =>
    rw [getKey_cons] at h
    rw [hasKey_cons]
    by_cases hpk : p.1 = k
    · simp [hpk]
    · rw [if_neg hpk] at h
      simp [ih h]

theorem getKey_of_hasKey (f : List (String × JVal)) (k : String)
    (h : hasKey f k = true) : ∃ v, getKey f k = some v := by
  induction f with
  | nil => simp [hasKey] at h
  | cons p rest ih =>
    rw [hasKey_cons] at h
    rw [getKey_cons]
    by_cases hpk : p.1 = k
    · exact ⟨p.2, by rw [if_pos hpk]⟩
    · rw [if_neg hpk]
      simp [hpk] at h
      exact ih h

/-- The pure keep-condition of the vocabulary filter on a well-formed
item: the term exists, is a nonempty string, and its lowercase form is a
substring of the lowercased content. -/
def vocabKeep (check : String) (it : JVal) : Bool :=
  match it with
  | .obj fl =>
    match getKey fl "term" with
    | some (.str s) => !(s = "") && strContains check (lowerStr s)
    | some _ => false
    | none => false
  | _ => false

theorem pyVocabFilter_wf (check : String) (items : List JVal)
    (hwf : ∀ it ∈ items, ∃ fl, it = .obj fl ∧
      (getKey fl "term" = none ∨ ∃ ts, getKey fl "term" = some (.str ts))) :
    pyVocabFilter check items = .ok (items.filter (vocabKeep check)) := by
  induction items with
  | nil => rfl
  | cons it rest ih =>
    obtain ⟨fl, rfl, hterm⟩ := hwf _ (List.mem_cons_self _ rest)
    have htail := ih (fun x hx => hwf x (List.mem_cons_of_mem _ hx))
    rcases hterm with hnone | ⟨ts, hts⟩
    · simp [pyVocabFilter, hnone, htail, vocabKeep, List.filter_cons]
    · by_cases hemp : ts = ""
      · subst hemp
        simp [pyVocabFilter, hts, htail, vocabKeep, List.filter_cons,
          pyTruthy]
      · simp only [pyVocabFilter, hts, htail, pyTruthy, hemp,
          decide_not, decide_eq_true_eq]
        simp only [List.filter_cons, vocabKeep, hts]
        by_cases hc : strContains check (lowerStr ts) = true
        · simp [hemp, hc]
        · simp only [Bool.not_eq_true] at hc
          simp [hemp, hc]

theorem find?_append_single {α : Type} (l : List α) (a : α) (p : α → Bool)
    (h : l.find? p = none) :
    (l ++ [a]).find? p = if p a then some a else none := by
  induction l with
  | nil =>
    by_cases hp : p a = true
    · simp [List.find?, hp]
    · simp only [Bool.not_eq_true] at hp
      simp [List.find?, hp]
  | cons x xs ih =>
    have hx : p x = false := by
      by_contra hb
      rw [Bool.not_eq_false] at hb
      rw [List.find?_cons_of_pos xs hb] at h
      exact Option.noConfusion h
    rw [List.find?_cons_of_neg xs (by simp [hx])] at h
    rw [List.cons_append, List.find?_cons_of_neg (xs ++ [a]) (by simp [hx])]
    exact ih h

/-- C10: the two selector arguments are handled asymmetrically: an
unknown scope raises ValueError before any cache or model access (the
state is returned untouched), while an unknown user mode is silently
replaced by english_learner and the call proceeds exactly as if that
mode had been passed. -/
theorem analyze_scope_strict_mode_defaulted :
    (∀ (env : AnaEnv) (a : AnaArgs) (st : AnaState),
      registryScopes.contains a.scope = false →
      analyzeArticle env a st
        = (.error (.valueError "Invalid analysis scope"), st)) ∧
    (∀ (env : AnaEnv) (a : AnaArgs) (st : AnaState),
      validModes.contains a.userMode = false →
      analyzeArticle env a st
        = analyzeArticle env { a with userMode := "english_learner" } st) := by
  constructor
  · intro env a st h
    have h2 : ¬(a.scope ∈ registryScopes) := by simpa using h
    simp [analyzeArticle, h2]
  · intro env a st h
    have h2 : ¬(a.userMode ∈ validModes) := by simpa using h
    have h3 : ¬(a.userMode = "english_learner" ∨ a.userMode = "ai_learner") :=
      by simpa [validModes] using h2
    simp [analyzeArticle, validModes, h3]

/-- A minimal environment for the C10 witness. -/
def anaEnvW10 : AnaEnv :=
  { aiResponse := fun _ => .error "no service",
    vocabContext := fun _ => "", configDefaultModel := "MiniMax-M2.1" }

/-- A minimal state for the C10 witness. -/
def anaStateW10 : AnaState :=
  { analysis := [], news := [], settings := fun _ => none, aiCalls := 0 }

/-- Arguments with an invalid scope. -/
def anaArgsBadScope : AnaArgs :=
  { newsId := 1, provider := none, model := none, apiKey := "",
    scope := "banana", userMode := "english_learner", baseUrl := none,
    force := false }

/-- Arguments with an unknown user mode and a valid scope. -/
def anaArgsAlienMode : AnaArgs :=
  { newsId := 1, provider := none, model := none, apiKey := "",
    scope := "summary", userMode := "alien", baseUrl := none,
    force := false }

/-- Witness for C10: the theorem applied at concrete arguments. -/
theorem analyze_scope_strict_mode_defaulted_witness :
    analyzeArticle anaEnvW10 anaArgsBadScope anaStateW10
      = (.error (.valueError "Invalid analysis scope"), anaStateW10) ∧
    analyzeArticle anaEnvW10 anaArgsAlienMode anaStateW10
      = analyzeArticle anaEnvW10
          { anaArgsAlienMode with userMode := "english_learner" }
          anaStateW10 := by
  exact ⟨analyze_scope_strict_mode_defaulted.1 anaEnvW10 anaArgsBadScope
      anaStateW10 (by decide),
    analyze_scope_strict_mode_defaulted.2 anaEnvW10 anaArgsAlienMode
      anaStateW10 (by decide)⟩

/-- C4: on a cache hit for the vocabulary scope with force false, the
call returns the cached payload with the scope key set and with every
term whose text is not a case-insensitive substring of the current
article text removed from the returned vocabulary list, and the state,
in particular the stored AnalysisRecord row, is returned unchanged: this
read path performs no write. -/
theorem vocabulary_cache_hit_filters_without_write
    (env : AnaEnv) (a : AnaArgs) (st : AnaState) (row : AnalysisRow)
    (flds : List (String × JVal)) (items : List JVal) (nrow : ARow)
    (hforce : a.force = false)
    (hscope : a.scope = "vocabulary")
    (hmode : validModes.contains a.userMode = true)
    (hrow : findAnalysis st.analysis a.newsId "vocabulary" a.userMode
      = some row)
    (hcontent : row.content = some (.obj flds))
    (hvocab : getKey flds "vocabulary" = some (.arr items))
    (hnews : findNews st.news a.newsId = some nrow)
    (hwf : ∀ it ∈ items, ∃ fl, it = .obj fl ∧
      (getKey fl "term" = none ∨ ∃ ts, getKey fl "term" = some (.str ts))) :
    analyzeArticle env a st
      = (.ok (.obj (setKey (setKey flds "scope" (.str "vocabulary"))
          "vocabulary"
          (.arr (items.filter (vocabKeep
            (lowerStr (pyOrStr nrow.content_raw nrow.summary))))))), st) ∧
    (∀ it ∈ items, ∀ fl ts, it = .obj fl →
      getKey fl "term" = some (.str ts) →
      strContains (lowerStr (pyOrStr nrow.content_raw nrow.summary))
        (lowerStr ts) = false →
      it ∉ items.filter (vocabKeep
        (lowerStr (pyOrStr nrow.content_raw nrow.summary)))) := by
  constructor
  · have hne1 : ¬("vocabulary" = "scope") := by decide
    have hf1vocab : getKey (setKey flds "scope" (.str "vocabulary"))
        "vocabulary" = some (.arr items) := by
      rw [getKey_setKey_ne flds "vocabulary" "scope" _ hne1]
      exact hvocab
    have hf1has : hasKey (setKey flds "scope" (.str "vocabulary"))
        "vocabulary" = true := hasKey_of_getKey _ _ _ hf1vocab
    have hfil := pyVocabFilter_wf
      (lowerStr (pyOrStr nrow.content_raw nrow.summary)) items hwf
    have hw : a.userMode ∈ validModes := by simpa using hmode
    simp only [analyzeArticle, hscope, hforce]
    simp only [hmode, if_true, Bool.false_eq_true, if_false]
    rw [if_neg (by decide : ¬(registryScopes.contains "vocabulary" = false))]
    simp only [hrow, hcontent]
    simp only [cacheHitResult, pySetItem, if_pos rfl]
    simp only [hf1has, if_true, hnews, hf1vocab, pyIterVocab, hfil]
  · intro it hit fl ts hfl hterm hnc hmem
    have hk := (List.mem_filter.mp hmem).2
    rw [hfl] at hk
    simp only [vocabKeep, hterm, Bool.and_eq_true] at hk
    rw [hnc] at hk
    exact Bool.false_ne_true hk.2

/-- A cached vocabulary item whose term occurs in the article text. -/
def c4Item1 : JVal :=
  .obj [("term", .str "hello"), ("definition", .str "greeting")]

/-- A cached vocabulary item whose term does not occur in the text. -/
def c4Item2 : JVal :=
  .obj [("term", .str "zebra"), ("definition", .str "animal")]

/-- The cached analysis row for the C4 witness. -/
def c4Row : AnalysisRow :=
  { newsId := 42, scope := "vocabulary", mode := "english_learner",
    content := some (.obj [("vocabulary", .arr [c4Item1, c4Item2])]),
    modelUsed := "M" }

/-- The article row for the C4 witness. -/
def c4News : ARow :=
  { id := 42, title := "T", content_raw := some "Say hello world",
    summary := none }

/-- The state for the C4 witness. -/
def c4State : AnaState :=
  { analysis := [c4Row], news := [c4News], settings := fun _ => none,
    aiCalls := 0 }

/-- An environment whose model oracle must not be reached. -/
def c4Env : AnaEnv :=
  { aiResponse := fun _ => .error "must not be called",
    vocabContext := fun _ => "", configDefaultModel := "M" }

/-- The arguments for the C4 witness. -/
def c4Args : AnaArgs :=
  { newsId := 42, provider := none, model := none, apiKey := "",
    scope := "vocabulary", userMode := "english_learner",
    baseUrl := none, force := false }

set_option maxRecDepth 20000 in
/-- Witness for C4: the theorem applied at a concrete cached payload;
the hallucinated term zebra is dropped from the returned list, the
surviving term hello is kept, and the state is unchanged. -/
theorem vocabulary_cache_hit_filters_without_write_witness :
    analyzeArticle c4Env c4Args c4State
      = (.ok (.obj [("vocabulary", .arr [c4Item1]),
          ("scope", .str "vocabulary")]), c4State) := by
  have hwf : ∀ it ∈ [c4Item1, c4Item2], ∃ fl, it = JVal.obj fl ∧
      (getKey fl "term" = none ∨
        ∃ ts, getKey fl "term" = some (.str ts)) := by
    intro it hit
    rcases List.mem_cons.mp hit with rfl | hit2
    · exact ⟨[("term", .str "hello"), ("definition", .str "greeting")],
        rfl, Or.inr ⟨"hello", rfl⟩⟩
    · rcases List.mem_cons.mp hit2 with rfl | hit3
      · exact ⟨[("term", .str "zebra"), ("definition", .str "animal")],
          rfl, Or.inr ⟨"zebra", rfl⟩⟩
      · simp at hit3
  have h := (vocabulary_cache_hit_filters_without_write c4Env c4Args
    c4State c4Row [("vocabulary", .arr [c4Item1, c4Item2])]
    [c4Item1, c4Item2] c4News rfl rfl (by decide) rfl rfl rfl rfl hwf).1
  rw [h]
  rfl

theorem findAnalysis_upsert_fresh (tbl : List AnalysisRow)
    (row : AnalysisRow)
    (h : findAnalysis tbl row.newsId row.scope row.mode = none) :
    findAnalysis (upsertAnalysis tbl row) row.newsId row.scope row.mode
      = some row := by
  have hany : tbl.any (fun r =>
      r.newsId = row.newsId ∧ r.scope = row.scope ∧ r.mode = row.mode)
      = false := by
    by_contra hb
    rw [Bool.not_eq_false, List.any_eq_true] at hb
    obtain ⟨r, hr, hpr⟩ := hb
    have := List.find?_eq_none.mp h r hr
    exact this hpr
  unfold upsertAnalysis
  rw [hany]
  simp only [Bool.false_eq_true, if_false]
  unfold findAnalysis at h ⊢
  rw [find?_append_single _ _ _ h]
  simp

theorem analyzeGenerate_summary_success (env : AnaEnv) (nid : Nat)
    (mode : String) (mdl : Option String) (st : AnaState) (nrow : ARow)
    (raw : String) (flds : List (String × JVal))
    (hnews : findNews st.news nid = some nrow)
    (hai : env.aiResponse (buildPrompt env st "summary" mode nrow.title
      (strTake (pyOrStr nrow.content_raw nrow.summary) 20000)) = .ok raw)
    (hparse : parseAiJson raw = some (.obj flds)) :
    ∃ nws, analyzeGenerate env nid "summary" mode mdl st
      = (.ok (.obj (setKey flds "scope" (.str "summary"))),
         { st with aiCalls := st.aiCalls + 1,
                   analysis := upsertAnalysis st.analysis
                     { newsId := nid, scope := "summary", mode := mode,
                       content := some (.obj flds),
                       modelUsed := match mdl with
                         | some m => m
                         | none => env.configDefaultModel },
                   news := nws }) := by
  unfold analyzeGenerate
  rw [hnews]
  simp only [hai, hparse]
  rw [if_neg (by decide : ¬("summary" = "vocabulary"))]
  simp only [pyIn, pySetItem]
  by_cases hk : hasKey flds "summary" = true
  · obtain ⟨sv, hsv⟩ := getKey_of_hasKey flds "summary" hk
    rw [hk]
    simp only [pyGetItem, hsv]
    simp only [if_true]
    cases sv with
    | str s2 =>
      by_cases hs2 : s2 = ""
      · exact ⟨st.news, by simp [hs2]⟩
      · exact ⟨updateNewsSummary st.news nid
          (by exact s2), by simp [hs2]⟩
    | null => exact ⟨st.news, by simp⟩
    | bool b => exact ⟨st.news, by simp⟩
    | num n => exact ⟨st.news, by simp⟩
    | arr l => exact ⟨st.news, by simp⟩
    | obj f2 => exact ⟨st.news, by simp⟩
  · have hk2 : hasKey flds "summary" = false := by
      simpa using hk
    rw [hk2]
    simp only [if_true]
    exact ⟨st.news, by simp⟩

/-- C7: with a valid mode, scope summary, no cached row, and a model
response that parses to a JSON object, the first call returns the object
with its scope key set, makes exactly one model call, and every further
call with the same arguments on the resulting state returns the same
payload and leaves the state (hence the model-call count) unchanged. -/
theorem analysis_cache_second_call_identical
    (env : AnaEnv) (a : AnaArgs) (st : AnaState) (nrow : ARow)
    (raw : String) (flds : List (String × JVal))
    (hforce : a.force = false)
    (hscope : a.scope = "summary")
    (hmode : validModes.contains a.userMode = true)
    (hmiss : findAnalysis st.analysis a.newsId "summary" a.userMode = none)
    (hnews : findNews st.news a.newsId = some nrow)
    (hai : env.aiResponse (buildPrompt env st "summary" a.userMode nrow.title
      (strTake (pyOrStr nrow.content_raw nrow.summary) 20000)) = .ok raw)
    (hparse : parseAiJson raw = some (.obj flds)) :
    (analyzeArticle env a st).1
      = .ok (.obj (setKey flds "scope" (.str "summary"))) ∧
    (analyzeArticle env a st).2.aiCalls = st.aiCalls + 1 ∧
    analyzeArticle env a (analyzeArticle env a st).2
      = ((analyzeArticle env a st).1, (analyzeArticle env a st).2) := by
  obtain ⟨nws, hgen⟩ := analyzeGenerate_summary_success env a.newsId
    a.userMode a.model st nrow raw flds hnews hai hparse
  have hmode2 : a.userMode ∈ validModes := by simpa using hmode
  have hfirst : analyzeArticle env a st
      = (.ok (.obj (setKey flds "scope" (.str "summary"))),
         { st with aiCalls := st.aiCalls + 1,
                   analysis := upsertAnalysis st.analysis
                     { newsId := a.newsId, scope := "summary",
                       mode := a.userMode, content := some (.obj flds),
                       modelUsed := match a.model with
                         | some m => m
                         | none => env.configDefaultModel },
                   news := nws }) := by
    simpa [analyzeArticle, hscope, hforce, hmode2, hmiss, registryScopes]
      using hgen
  have hfind2 : findAnalysis
      (upsertAnalysis st.analysis
        { newsId := a.newsId, scope := "summary", mode := a.userMode,
          content := some (.obj flds),
          modelUsed := match a.model with
            | some m => m
            | none => env.configDefaultModel })
      a.newsId "summary" a.userMode
      = some { newsId := a.newsId, scope := "summary", mode := a.userMode,
               content := some (.obj flds),
               modelUsed := match a.model with
                 | some m => m
                 | none => env.configDefaultModel } :=
    findAnalysis_upsert_fresh st.analysis
      { newsId := a.newsId, scope := "summary", mode := a.userMode,
        content := some (.obj flds),
        modelUsed := match a.model with
          | some m => m
          | none => env.configDefaultModel } hmiss
  have hsecond : ∀ st2 : AnaState,
      findAnalysis st2.analysis a.newsId "summary" a.userMode
        = some { newsId := a.newsId, scope := "summary",
                 mode := a.userMode, content := some (.obj flds),
                 modelUsed := match a.model with
                   | some m => m
                   | none => env.configDefaultModel } →
      analyzeArticle env a st2
        = (.ok (.obj (setKey flds "scope" (.str "summary"))), st2) := by
    intro st2 hf
    simp [analyzeArticle, hscope, hforce, hmode2, hf, registryScopes,
      cacheHitResult, pySetItem]
  refine ⟨by rw [hfirst], by rw [hfirst], ?_⟩
  rw [hfirst]
  exact hsecond _ hfind2

/-- A concrete article row for the C7 witness. -/
def c7News : ARow :=
  { id := 7, title := "T", content_raw := some "Body", summary := none }

/-- The state for the C7 witness: empty analysis cache. -/
def c7State : AnaState :=
  { analysis := [], news := [c7News], settings := fun _ => none,
    aiCalls := 0 }

/-- The model response for the C7 witness. -/
def c7Raw : String := "\x7b\"summary\": \"Short summary.\"\x7d"

/-- An environment whose model oracle always returns the same JSON. -/
def c7Env : AnaEnv :=
  { aiResponse := fun _ => .ok c7Raw,
    vocabContext := fun _ => "", configDefaultModel := "M" }

/-- The arguments for the C7 witness. -/
def c7Args : AnaArgs :=
  { newsId := 7, provider := none, model := none, apiKey := "",
    scope := "summary", userMode := "english_learner",
    baseUrl := none, force := false }

set_option maxRecDepth 20000 in
/-- Witness for C7: the theorem applied at a concrete article and a
model answering a fixed summary object; the second call on the state
produced by the first returns the same payload without touching it. -/
theorem analysis_cache_second_call_identical_witness :
    (analyzeArticle c7Env c7Args c7State).1
      = .ok (.obj (setKey [("summary", JVal.str "Short summary.")]
          "scope" (.str "summary"))) ∧
    (analyzeArticle c7Env c7Args c7State).2.aiCalls
      = c7State.aiCalls + 1 ∧
    analyzeArticle c7Env c7Args (analyzeArticle c7Env c7Args c7State).2
      = ((analyzeArticle c7Env c7Args c7State).1,
         (analyzeArticle c7Env c7Args c7State).2) :=
  analysis_cache_second_call_identical c7Env c7Args c7State c7News c7Raw
    [("summary", JVal.str "Short summary.")] rfl rfl rfl rfl rfl rfl rfl

/-- C8: on the generate path, when every JSON-parsing strategy fails on
the model response, the call returns ok with an error payload whose
raw_response field is the response truncated to 2000 characters, the
model-call counter is bumped once, and the analysis table (hence any
previously cached entry for the key) is left unchanged. -/
theorem parse_failure_error_payload_no_write
    (env : AnaEnv) (a : AnaArgs) (st : AnaState) (nrow : ARow)
    (raw : String)
    (hscope : registryScopes.contains a.scope = true)
    (hmode : validModes.contains a.userMode = true)
    (hforce : a.force = true)
    (hnews : findNews st.news a.newsId = some nrow)
    (hai : env.aiResponse (buildPrompt env st a.scope a.userMode nrow.title
      (strTake (pyOrStr nrow.content_raw nrow.summary) 20000)) = .ok raw)
    (hparse : parseAiJson raw = none) :
    analyzeArticle env a st
      = (.ok (parseErrObj a.scope raw),
         { st with aiCalls := st.aiCalls + 1 }) ∧
    (analyzeArticle env a st).2.analysis = st.analysis ∧
    (¬ raw = "" →
      parseErrObj a.scope raw
        = .obj [("scope", .str a.scope),
                ("error", .str "Error parsing AI response."),
                ("raw_response", .str (strTake raw 2000))]) := by
  have hmode2 : a.userMode ∈ validModes := by simpa using hmode
  have hscope2 : a.scope ∈ registryScopes := by simpa using hscope
  have hmain : analyzeArticle env a st
      = (.ok (parseErrObj a.scope raw),
         { st with aiCalls := st.aiCalls + 1 }) := by
    simp [analyzeArticle, hforce, hmode2, hscope2, analyzeGenerate,
      hnews, hai, hparse]
  refine ⟨hmain, by rw [hmain], fun hr => ?_⟩
  simp [parseErrObj, hr]

/-- A previously cached summary entry that must survive the failed parse. -/
def c8Row : AnalysisRow :=
  { newsId := 8, scope := "summary", mode := "english_learner",
    content := some (.obj [("summary", .str "old")]), modelUsed := "M" }

/-- A concrete article row for the C8 witness. -/
def c8News : ARow :=
  { id := 8, title := "T8", content_raw := some "Body8", summary := none }

/-- The state for the C8 witness: one cached row already present. -/
def c8State : AnaState :=
  { analysis := [c8Row], news := [c8News], settings := fun _ => none,
    aiCalls := 3 }

/-- An environment whose model answers prose with no JSON object. -/
def c8Env : AnaEnv :=
  { aiResponse := fun _ => .ok "no json here",
    vocabContext := fun _ => "", configDefaultModel := "M" }

/-- The arguments for the C8 witness: a forced refresh. -/
def c8Args : AnaArgs :=
  { newsId := 8, provider := none, model := none, apiKey := "",
    scope := "summary", userMode := "english_learner",
    baseUrl := none, force := true }

set_option maxRecDepth 20000 in
/-- Witness for C8: the theorem applied at a model answer that no parse
strategy accepts; the cached row is untouched and the payload carries
the raw answer. -/
theorem parse_failure_error_payload_no_write_witness :
    analyzeArticle c8Env c8Args c8State
      = (.ok (parseErrObj "summary" "no json here"),
         { c8State with aiCalls := c8State.aiCalls + 1 }) ∧
    (analyzeArticle c8Env c8Args c8State).2.analysis = c8State.analysis ∧
    (¬ "no json here" = "" →
      parseErrObj "summary" "no json here"
        = .obj [("scope", .str "summary"),
                ("error", .str "Error parsing AI response."),
                ("raw_response", .str (strTake "no json here" 2000))]) :=
  parse_failure_error_payload_no_write c8Env c8Args c8State c8News
    "no json here" rfl rfl rfl rfl rfl rfl
